import Mathlib

/-!
Verification development for the EGSnrc tetrahedral-mesh geometry core
(HEN_HOUSE/egs++/geometry/egs_mesh/egs_mesh.cpp).

The C++ source is shallowly embedded over the real numbers: `EGS_Vector`
becomes `EM.Vec3`, `EGS_Float` becomes `ℝ`, and each routine of the source
becomes a Lean function of the same shape.  Floating-point rounding is not
modelled; the tolerance constants (1e-8, 1e-10) of the source are kept as
exact real constants.  Branches on real comparisons use classical
decidability, so the development lives in a `noncomputable section`.
-/

noncomputable section

open scoped Classical

namespace EM

/-- Embedding of `EGS_Vector`: a 3-vector of reals. -/
structure Vec3 where
  x : ℝ
  y : ℝ
  z : ℝ

namespace Vec3

instance : Add Vec3 := ⟨fun a b => ⟨a.x + b.x, a.y + b.y, a.z + b.z⟩⟩
instance : Sub Vec3 := ⟨fun a b => ⟨a.x - b.x, a.y - b.y, a.z - b.z⟩⟩
instance : Neg Vec3 := ⟨fun a => ⟨-a.x, -a.y, -a.z⟩⟩
instance : SMul ℝ Vec3 := ⟨fun r a => ⟨r * a.x, r * a.y, r * a.z⟩⟩
instance : Inhabited Vec3 := ⟨⟨0, 0, 0⟩⟩

@[simp] theorem add_x (a b : Vec3) : (a + b).x = a.x + b.x := rfl
@[simp] theorem add_y (a b : Vec3) : (a + b).y = a.y + b.y := rfl
@[simp] theorem add_z (a b : Vec3) : (a + b).z = a.z + b.z := rfl
@[simp] theorem sub_x (a b : Vec3) : (a - b).x = a.x - b.x := rfl
@[simp] theorem sub_y (a b : Vec3) : (a - b).y = a.y - b.y := rfl
@[simp] theorem sub_z (a b : Vec3) : (a - b).z = a.z - b.z := rfl
@[simp] theorem neg_x (a : Vec3) : (-a).x = -a.x := rfl
@[simp] theorem neg_y (a : Vec3) : (-a).y = -a.y := rfl
@[simp] theorem neg_z (a : Vec3) : (-a).z = -a.z := rfl
@[simp] theorem smul_x (r : ℝ) (a : Vec3) : (r • a).x = r * a.x := rfl
@[simp] theorem smul_y (r : ℝ) (a : Vec3) : (r • a).y = r * a.y := rfl
@[simp] theorem smul_z (r : ℝ) (a : Vec3) : (r • a).z = r * a.z := rfl

@[ext] theorem ext {a b : Vec3} (hx : a.x = b.x) (hy : a.y = b.y)
    (hz : a.z = b.z) : a = b := by
  cases a; cases b; simp_all

end Vec3

/-- Embedding of `dot` (the scalar product `x * y` of `EGS_Vector`). -/
def dot (a b : Vec3) : ℝ := a.x * b.x + a.y * b.y + a.z * b.z

/-- Embedding of `cross` (`EGS_Vector::times`). -/
def cross (a b : Vec3) : Vec3 :=
  ⟨a.y * b.z - a.z * b.y, a.z * b.x - a.x * b.z, a.x * b.y - a.y * b.x⟩

/-- Squared euclidean length (`EGS_Vector::length2`). -/
def length2 (v : Vec3) : ℝ := dot v v

/-- Euclidean length (`EGS_Vector::length`). -/
def length (v : Vec3) : ℝ := Real.sqrt (length2 v)

/-- Embedding of `EGS_Vector::normalize` (division by the length).
On the zero vector the real-number convention `1 / 0 = 0` yields the zero
vector; all theorems about normals assume a nonzero cross product. -/
def normalize (v : Vec3) : Vec3 := (1 / length v) • v

/-- Embedding of `distance2`. -/
def distance2 (a b : Vec3) : ℝ := length2 (a - b)

/-- Embedding of `distance`. -/
def distance (a b : Vec3) : ℝ := Real.sqrt (distance2 a b)

/-- The general tolerance `eps = 1e-8` of the anonymous namespace. -/
def geps : ℝ := 1e-8

/-- The tighter tolerance `eps = 1e-10` used in the ray-triangle routines. -/
def ray_eps : ℝ := 1e-10

/-- Embedding of `approx_eq` (relative-tolerance comparison). -/
def approx_eq (a b e : ℝ) : Prop := |a - b| ≤ e * (|a| + |b| + 1)

/-- Embedding of `is_zero` for vectors. -/
def is_zero (v : Vec3) : Prop := approx_eq 0 (length v) geps

/-- Embedding of `min3`. -/
def min3 (a b c : ℝ) : ℝ := min (min a b) c

/-- Embedding of `max3`. -/
def max3 (a b c : ℝ) : ℝ := max (max a b) c

theorem dot_comm (a b : Vec3) : dot a b = dot b a := by
  simp [dot]; ring

theorem dot_cross_left (a b : Vec3) : dot (cross a b) a = 0 := by
  simp [dot, cross]; ring

theorem dot_cross_right (a b : Vec3) : dot (cross a b) b = 0 := by
  simp [dot, cross]; ring

theorem dot_smul_left (r : ℝ) (a b : Vec3) : dot (r • a) b = r * dot a b := by
  simp [dot]; ring

theorem dot_neg_left (a b : Vec3) : dot (-a) b = -dot a b := by
  simp [dot]; ring

theorem dot_add_right (a b c : Vec3) : dot a (b + c) = dot a b + dot a c := by
  simp [dot]; ring

theorem dot_sub_right (a b c : Vec3) : dot a (b - c) = dot a b - dot a c := by
  simp [dot]; ring

theorem dot_smul_right (r : ℝ) (a b : Vec3) : dot a (r • b) = r * dot a b := by
  simp [dot]; ring

theorem length2_nonneg (v : Vec3) : 0 ≤ length2 v := by
  simp only [length2, dot]
  nlinarith [sq_nonneg v.x, sq_nonneg v.y, sq_nonneg v.z]

theorem length_nonneg (v : Vec3) : 0 ≤ length v := Real.sqrt_nonneg _

theorem length_eq_zero_iff (v : Vec3) : length v = 0 ↔ v = ⟨0, 0, 0⟩ := by
  constructor
  · intro h
    have h2 : length2 v = 0 := by
      have := Real.sqrt_eq_zero (length2_nonneg v) |>.mp h
      exact this
    have hx : v.x ^ 2 + v.y ^ 2 + v.z ^ 2 = 0 := by
      simpa [length2, dot, sq] using h2
    have hvx : v.x = 0 := by nlinarith [sq_nonneg v.x, sq_nonneg v.y, sq_nonneg v.z]
    have hvy : v.y = 0 := by nlinarith [sq_nonneg v.x, sq_nonneg v.y, sq_nonneg v.z]
    have hvz : v.z = 0 := by nlinarith [sq_nonneg v.x, sq_nonneg v.y, sq_nonneg v.z]
    cases v; simp_all
  · rintro rfl
    simp [length, length2, dot]

theorem length_pos_of_ne {v : Vec3} (h : v ≠ ⟨0, 0, 0⟩) : 0 < length v := by
  rcases lt_or_eq_of_le (length_nonneg v) with h' | h'
  · exact h'
  · exact absurd ((length_eq_zero_iff v).mp h'.symm) h

theorem length_smul (r : ℝ) (v : Vec3) : length (r • v) = |r| * length v := by
  simp only [length, length2, dot, Vec3.smul_x, Vec3.smul_y, Vec3.smul_z]
  rw [show r * v.x * (r * v.x) + r * v.y * (r * v.y) + r * v.z * (r * v.z) =
    r ^ 2 * (v.x * v.x + v.y * v.y + v.z * v.z) by ring]
  rw [Real.sqrt_mul (sq_nonneg r), Real.sqrt_sq_eq_abs]

theorem length_neg (v : Vec3) : length (-v) = length v := by
  have : -v = (-1 : ℝ) • v := by ext <;> simp
  rw [this, length_smul]; simp

theorem length_normalize {v : Vec3} (h : v ≠ ⟨0, 0, 0⟩) :
    length (normalize v) = 1 := by
  have hl := length_pos_of_ne h
  rw [normalize, length_smul, abs_of_pos (by positivity)]
  field_simp

end EM

namespace EM

/-- Embedding of `closest_point_triangle` (Ericson's Voronoi-region
algorithm, as transcribed in the source). -/
def closest_point_triangle (P A B C : Vec3) : Vec3 :=
  let ab := B - A
  let ac := C - A
  let ao := P - A
  let d1 := dot ab ao
  let d2 := dot ac ao
  if d1 ≤ 0 ∧ d2 ≤ 0 then A
  else
    let bo := P - B
    let d3 := dot ab bo
    let d4 := dot ac bo
    if d3 ≥ 0 ∧ d4 ≤ d3 then B
    else
      let vc := d1 * d4 - d3 * d2
      if vc ≤ 0 ∧ d1 ≥ 0 ∧ d3 ≤ 0 then A + (d1 / (d1 - d3)) • ab
      else
        let co := P - C
        let d5 := dot ab co
        let d6 := dot ac co
        if d6 ≥ 0 ∧ d5 ≤ d6 then C
        else
          let vb := d5 * d2 - d1 * d6
          if vb ≤ 0 ∧ d2 ≥ 0 ∧ d6 ≤ 0 then A + (d2 / (d2 - d6)) • ac
          else
            let va := d3 * d6 - d5 * d4
            if va ≤ 0 ∧ d4 - d3 ≥ 0 ∧ d5 - d6 ≥ 0 then
              B + ((d4 - d3) / ((d4 - d3) + (d5 - d6))) • (C - B)
            else
              let denom := 1 / (va + vb + vc)
              A + (vb * denom) • ab + (vc * denom) • ac

/-- Embedding of `point_outside_of_plane`: true iff `P` and the reference
point `D` lie strictly on opposite sides of the plane through `A B C`. -/
def point_outside_of_plane (P A B C D : Vec3) : Prop :=
  dot (P - A) (cross (B - A) (C - A)) * dot (D - A) (cross (B - A) (C - A)) < 0

/-- Embedding of `closest_point_tetrahedron`: candidates from the faces
whose plane `P` is outside of, folded with the squared-distance minimum.
The C++ sequentially updates `(min, min_point)`; the same fold is written
out here with an explicit pair state. -/
def closest_point_tetrahedron (P A B C D : Vec3) : Vec3 :=
  let st0 : ℝ × Vec3 := (((2 : ℝ) ^ 1024), P)
  let upd : ℝ × Vec3 → Vec3 → Vec3 → Vec3 → ℝ × Vec3 := fun st a b c =>
    let q := closest_point_triangle P a b c
    let dis := distance2 q P
    if dis < st.1 then (dis, q) else st
  let st1 := if point_outside_of_plane P A B C D then upd st0 A B C else st0
  let st2 := if point_outside_of_plane P A C D B then upd st1 A C D else st1
  let st3 := if point_outside_of_plane P A B D C then upd st2 A B D else st2
  let st4 := if point_outside_of_plane P B D C A then upd st3 B D C else st3
  st4.2

/-- Embedding of `exterior_triangle_ray_intersection` (double-sided
Möller–Trumbore).  The return value models the C++ `(int, out dist)` pair:
the boolean is the hit flag and the real is the value of `dist` after the
call, given its value `dist0` before the call. -/
def exterior_triangle_ray_intersection (p v_norm a b c : Vec3) (dist0 : ℝ) :
    Bool × ℝ :=
  let ab := b - a
  let ac := c - a
  let pvec := cross v_norm ac
  let det := dot ab pvec
  if -ray_eps < det ∧ det < ray_eps then (false, dist0)
  else
    let inv_det := 1 / det
    let tvec := p - a
    let u := dot tvec pvec * inv_det
    if u < 0 ∨ u > 1 then (false, dist0)
    else
      let qvec := cross tvec ab
      let v := dot v_norm qvec * inv_det
      if v < 0 ∨ u + v > 1 then (false, dist0)
      else
        let t := dot ac qvec * inv_det
        if t < 0 then (false, t) else (true, t)

/-- Embedding of `interior_triangle_ray_intersection` (single-sided
Möller–Trumbore with the face-normal direction test and the on/outside
plane test).  The return value models the C++ `(int, out dist)` pair, with
`dist0` the value of the out parameter before the call.  Note the one
branch in which a *failed* test still writes the out parameter: a negative
parametric distance stores `0.0` into `dist` before returning no-hit. -/
def interior_triangle_ray_intersection (p v_norm face_norm a b c : Vec3)
    (dist0 : ℝ) : Bool × ℝ :=
  if dot v_norm face_norm > -ray_eps then (false, dist0)
  else if dot face_norm (p - a) < 0 then (false, dist0)
  else
    let ab := b - a
    let ac := c - a
    let pvec := cross v_norm ac
    let det := dot ab pvec
    if -ray_eps < det ∧ det < ray_eps then (false, dist0)
    else
      let inv_det := 1 / det
      let tvec := p - a
      let u := dot tvec pvec * inv_det
      if u < 0 ∨ u > 1 then (false, dist0)
      else
        let qvec := cross tvec ab
        let v := dot v_norm qvec * inv_det
        if v < 0 ∨ u + v > 1 then (false, dist0)
        else
          let t := dot ac qvec * inv_det
          if t < 0 then (false, 0) else (true, t)

/-- Embedding of the `get_normal` lambda of `EGS_Mesh::initializeNormals`:
normalize the cross product of two edges of the face `a b c` and flip it if
it points away from the reference point `d` (the vertex opposite the
face). -/
def get_normal (a b c d : Vec3) : Vec3 :=
  let n := normalize (cross (b - a) (c - a))
  if dot n (d - a) < 0 then -n else n

/-- Embedding of `EGS_Mesh::Nodes`: the four corners of one tetrahedron. -/
structure Nodes where
  A : Vec3
  B : Vec3
  C : Vec3
  D : Vec3

instance : Inhabited Nodes := ⟨⟨default, default, default, default⟩⟩

/-- The three corners of face `i` of an element, in the order the source
lists them (`face_nodes` in `howfar_interior`, and the argument order of
`initializeNormals` and `closest_boundary_face`): face 0 is `{B,C,D}`,
face 1 `{A,C,D}`, face 2 `{A,B,D}`, face 3 `{A,B,C}`. -/
def faceCorners (nd : Nodes) : Fin 4 → Vec3 × Vec3 × Vec3
  | 0 => (nd.B, nd.C, nd.D)
  | 1 => (nd.A, nd.C, nd.D)
  | 2 => (nd.A, nd.B, nd.D)
  | 3 => (nd.A, nd.B, nd.C)

/-- The vertex opposite face `i` (the reference point handed to
`get_normal` for that face). -/
def oppositeVertex (nd : Nodes) : Fin 4 → Vec3
  | 0 => nd.A
  | 1 => nd.B
  | 2 => nd.C
  | 3 => nd.D

/-- The four stored face normals of one element, exactly as
`EGS_Mesh::initializeNormals` computes them. -/
def elementNormals (nd : Nodes) (i : Fin 4) : Vec3 :=
  get_normal (faceCorners nd i).1 (faceCorners nd i).2.1
    (faceCorners nd i).2.2 (oppositeVertex nd i)

/-- Embedding of `EGS_Mesh::insideElement`: the exact point-in-tetrahedron
test, true iff the point is not strictly outside any of the four face
planes. -/
def insideNodes (nd : Nodes) (x : Vec3) : Prop :=
  ¬point_outside_of_plane x nd.A nd.B nd.C nd.D ∧
  ¬point_outside_of_plane x nd.A nd.C nd.D nd.B ∧
  ¬point_outside_of_plane x nd.A nd.B nd.D nd.C ∧
  ¬point_outside_of_plane x nd.B nd.C nd.D nd.A

end EM

namespace EM

/-- The Möller–Trumbore determinant `det = dot(ab, cross(v, ac))`. -/
def mtDet (p v a b c : Vec3) : ℝ := dot (b - a) (cross v (c - a))

/-- The first barycentric coordinate computed by Möller–Trumbore. -/
def mtU (p v a b c : Vec3) : ℝ :=
  dot (p - a) (cross v (c - a)) / mtDet p v a b c

/-- The second barycentric coordinate computed by Möller–Trumbore. -/
def mtV (p v a b c : Vec3) : ℝ :=
  dot v (cross (p - a) (b - a)) / mtDet p v a b c

/-- The parametric intersection distance computed by Möller–Trumbore. -/
def mtT (p v a b c : Vec3) : ℝ :=
  dot (c - a) (cross (p - a) (b - a)) / mtDet p v a b c

/-- All conditions under which `interior_triangle_ray_intersection`
reports a hit, written out with the closed-form quantities. -/
def interiorHit (p v n a b c : Vec3) : Prop :=
  dot v n ≤ -ray_eps ∧ 0 ≤ dot n (p - a) ∧
  (mtDet p v a b c ≤ -ray_eps ∨ ray_eps ≤ mtDet p v a b c) ∧
  0 ≤ mtU p v a b c ∧ mtU p v a b c ≤ 1 ∧
  0 ≤ mtV p v a b c ∧ mtU p v a b c + mtV p v a b c ≤ 1 ∧
  0 ≤ mtT p v a b c

theorem mtDet_ne_zero {p v a b c : Vec3}
    (h : mtDet p v a b c ≤ -ray_eps ∨ ray_eps ≤ mtDet p v a b c) :
    mtDet p v a b c ≠ 0 := by
  have : (0 : ℝ) < ray_eps := by norm_num [ray_eps]
  rcases h with h | h <;> intro hc <;> rw [hc] at h <;> linarith

theorem interior_eq_of_hit {p v n a b c : Vec3}
    (hit : interiorHit p v n a b c) (d0 : ℝ) :
    interior_triangle_ray_intersection p v n a b c d0 =
      (true, mtT p v a b c) := by
  obtain ⟨h1, h2, h3, h4, h5, h6, h7, h8⟩ := hit
  have hdet := mtDet_ne_zero h3
  rw [interior_triangle_ray_intersection]
  rw [if_neg (by simpa using h1)]
  rw [if_neg (by simpa using h2)]
  simp only []
  have hdeq : dot (b - a) (cross v (c - a)) = mtDet p v a b c := rfl
  rw [if_neg (by
    rw [hdeq]
    rcases h3 with h | h
    · exact fun hc => absurd hc.1 (by linarith)
    · exact fun hc => absurd hc.2 (by linarith))]
  have hueq : dot (p - a) (cross v (c - a)) * (1 / dot (b - a) (cross v (c - a)))
      = mtU p v a b c := by
    rw [mul_one_div]; rfl
  rw [if_neg (by
    rw [hueq]
    rintro (hc | hc)
    · exact absurd hc (by linarith)
    · exact absurd hc (by linarith))]
  have hveq : dot v (cross (p - a) (b - a)) * (1 / dot (b - a) (cross v (c - a)))
      = mtV p v a b c := by
    rw [mul_one_div]; rfl
  rw [hueq, hveq]
  rw [if_neg (by
    rintro (hc | hc)
    · exact absurd hc (by linarith)
    · exact absurd hc (by linarith))]
  have hteq : dot (c - a) (cross (p - a) (b - a)) * (1 / dot (b - a) (cross v (c - a)))
      = mtT p v a b c := by
    rw [mul_one_div]; rfl
  rw [hteq, if_neg (by linarith)]

theorem hit_of_interior_true {p v n a b c : Vec3} {d0 : ℝ}
    (h : (interior_triangle_ray_intersection p v n a b c d0).1 = true) :
    interiorHit p v n a b c := by
  simp only [interior_triangle_ray_intersection] at h
  split_ifs at h with h1 h2 h3 h4 h5 h6
  · push_neg at h1 h2
    refine ⟨h1, h2, ?_, ?_, ?_, ?_, ?_, ?_⟩
    · rcases not_and_or.mp h3 with h | h
      · exact Or.inl (by push_neg at h; exact h)
      · exact Or.inr (by push_neg at h; exact h)
    · have h4' := not_or.mp h4
      have := h4'.1
      push_neg at this
      rwa [mul_one_div] at this
    · have h4' := not_or.mp h4
      have := h4'.2
      push_neg at this
      rwa [mul_one_div] at this
    · have h5' := not_or.mp h5
      have h5a := h5'.1
      push_neg at h5a
      rwa [mul_one_div] at h5a
    · have h5' := not_or.mp h5
      have h5b := h5'.2
      push_neg at h5b
      rw [mul_one_div, mul_one_div] at h5b
      exact h5b
    · push_neg at h6
      rwa [mul_one_div] at h6

theorem mt_cramer_x (p v a b c : Vec3) :
    mtDet p v a b c * p.x + dot (c - a) (cross (p - a) (b - a)) * v.x =
      mtDet p v a b c * a.x + dot (p - a) (cross v (c - a)) * (b.x - a.x) +
        dot v (cross (p - a) (b - a)) * (c.x - a.x) := by
  simp only [mtDet, dot, cross, Vec3.sub_x, Vec3.sub_y, Vec3.sub_z]
  ring

theorem mt_cramer_y (p v a b c : Vec3) :
    mtDet p v a b c * p.y + dot (c - a) (cross (p - a) (b - a)) * v.y =
      mtDet p v a b c * a.y + dot (p - a) (cross v (c - a)) * (b.y - a.y) +
        dot v (cross (p - a) (b - a)) * (c.y - a.y) := by
  simp only [mtDet, dot, cross, Vec3.sub_x, Vec3.sub_y, Vec3.sub_z]
  ring

theorem mt_cramer_z (p v a b c : Vec3) :
    mtDet p v a b c * p.z + dot (c - a) (cross (p - a) (b - a)) * v.z =
      mtDet p v a b c * a.z + dot (p - a) (cross v (c - a)) * (b.z - a.z) +
        dot v (cross (p - a) (b - a)) * (c.z - a.z) := by
  simp only [mtDet, dot, cross, Vec3.sub_x, Vec3.sub_y, Vec3.sub_z]
  ring

/-- Cramer identity behind Möller–Trumbore: the computed parameters place
the ray point on the affine span of the triangle, as a barycentric
combination with the computed coordinates. -/
theorem mt_affine {p v a b c : Vec3} (hdet : mtDet p v a b c ≠ 0) :
    p + mtT p v a b c • v =
      a + mtU p v a b c • (b - a) + mtV p v a b c • (c - a) := by
  ext
  · show p.x + mtT p v a b c * v.x =
      a.x + mtU p v a b c * (b - a).x + mtV p v a b c * (c - a).x
    rw [mtT, mtU, mtV, Vec3.sub_x, Vec3.sub_x]
    field_simp
    linear_combination mt_cramer_x p v a b c
  · show p.y + mtT p v a b c * v.y =
      a.y + mtU p v a b c * (b - a).y + mtV p v a b c * (c - a).y
    rw [mtT, mtU, mtV, Vec3.sub_y, Vec3.sub_y]
    field_simp
    linear_combination mt_cramer_y p v a b c
  · show p.z + mtT p v a b c * v.z =
      a.z + mtU p v a b c * (b - a).z + mtV p v a b c * (c - a).z
    rw [mtT, mtU, mtV, Vec3.sub_z, Vec3.sub_z]
    field_simp
    linear_combination mt_cramer_z p v a b c

end EM

namespace EM

theorem dot_zero_diag (n a : Vec3) : dot n (a - a) = 0 := by
  simp [dot]

theorem dot_get_normal_opp (a b c d : Vec3) :
    0 ≤ dot (get_normal a b c d) (d - a) := by
  rw [get_normal]
  split_ifs with h
  · rw [dot_neg_left]; linarith
  · linarith [not_lt.mp h]

theorem dot_get_normal_edge1 (a b c d : Vec3) :
    dot (get_normal a b c d) (b - a) = 0 := by
  have base : dot (normalize (cross (b - a) (c - a))) (b - a) = 0 := by
    rw [normalize, dot_smul_left, dot_cross_left, mul_zero]
  rw [get_normal]
  split_ifs with h
  · rw [dot_neg_left, base, neg_zero]
  · exact base

theorem dot_get_normal_edge2 (a b c d : Vec3) :
    dot (get_normal a b c d) (c - a) = 0 := by
  have base : dot (normalize (cross (b - a) (c - a))) (c - a) = 0 := by
    rw [normalize, dot_smul_left, dot_cross_right, mul_zero]
  rw [get_normal]
  split_ifs with h
  · rw [dot_neg_left, base, neg_zero]
  · exact base

theorem elementNormals_eq (nd : Nodes) (i : Fin 4) :
    elementNormals nd i = get_normal (faceCorners nd i).1
      (faceCorners nd i).2.1 (faceCorners nd i).2.2 (oppositeVertex nd i) :=
  rfl

/-- Every vertex of the element lies on the inner (non-negative) side of
every stored face-normal halfspace: the three face corners are on the face
plane, and the flip in `get_normal` puts the opposite vertex on the
non-negative side. -/
theorem normal_halfspace (nd : Nodes) (i : Fin 4) (w : Vec3)
    (hw : w = nd.A ∨ w = nd.B ∨ w = nd.C ∨ w = nd.D) :
    0 ≤ dot (elementNormals nd i) (w - (faceCorners nd i).1) := by
  fin_cases i <;> rcases hw with rfl | rfl | rfl | rfl <;>
    simp only [elementNormals, faceCorners, oppositeVertex] <;>
    first
      | exact le_of_eq (dot_zero_diag _ _).symm
      | exact le_of_eq (dot_get_normal_edge1 _ _ _ _).symm
      | exact le_of_eq (dot_get_normal_edge2 _ _ _ _).symm
      | exact dot_get_normal_opp _ _ _ _

theorem faceCorners_fst_mem (nd : Nodes) (j : Fin 4) :
    (faceCorners nd j).1 = nd.A ∨ (faceCorners nd j).1 = nd.B ∨
    (faceCorners nd j).1 = nd.C ∨ (faceCorners nd j).1 = nd.D := by
  fin_cases j <;> simp [faceCorners]

theorem faceCorners_snd_mem (nd : Nodes) (j : Fin 4) :
    (faceCorners nd j).2.1 = nd.A ∨ (faceCorners nd j).2.1 = nd.B ∨
    (faceCorners nd j).2.1 = nd.C ∨ (faceCorners nd j).2.1 = nd.D := by
  fin_cases j <;> simp [faceCorners]

theorem faceCorners_thd_mem (nd : Nodes) (j : Fin 4) :
    (faceCorners nd j).2.2 = nd.A ∨ (faceCorners nd j).2.2 = nd.B ∨
    (faceCorners nd j).2.2 = nd.C ∨ (faceCorners nd j).2.2 = nd.D := by
  fin_cases j <;> simp [faceCorners]

theorem dot_ray_expand (n x u : Vec3) (t : ℝ) :
    dot n (x + t • u) = dot n x + t * dot n u := by
  rw [dot_add_right, dot_smul_right]

theorem dot_bary_expand (n a ab ac : Vec3) (s t : ℝ) :
    dot n (a + s • ab + t • ac) = dot n a + s * dot n ab + t * dot n ac := by
  rw [dot_add_right, dot_add_right, dot_smul_right, dot_smul_right]

/-- Helper notation for the hit predicate on face `i` of an element,
using the stored normal of that face.  This is exactly the test
`interior_triangle_ray_intersection` applies inside
`EGS_Mesh::howfar_interior`. -/
def faceHit (nd : Nodes) (x u : Vec3) (i : Fin 4) : Prop :=
  interiorHit x u (elementNormals nd i) (faceCorners nd i).1
    (faceCorners nd i).2.1 (faceCorners nd i).2.2

/-- The parametric distance to face `i` computed by Möller–Trumbore. -/
def faceDist (nd : Nodes) (x u : Vec3) (i : Fin 4) : ℝ :=
  mtT x u (faceCorners nd i).1 (faceCorners nd i).2.1 (faceCorners nd i).2.2

theorem faceHit_le (nd : Nodes) (x u : Vec3) (i j : Fin 4)
    (hi : faceHit nd x u i) (hj : faceHit nd x u j) :
    faceDist nd x u j ≤ faceDist nd x u i := by
  simp only [faceDist]
  obtain ⟨hi1, hi2, hi3, hi4, hi5, hi6, hi7, hi8⟩ := hi
  obtain ⟨hj1, hj2, hj3, hj4, hj5, hj6, hj7, hj8⟩ := hj
  set n := elementNormals nd i with hn
  set ai := (faceCorners nd i).1 with hai
  set bi := (faceCorners nd i).2.1 with hbi
  set ci := (faceCorners nd i).2.2 with hci
  set aj := (faceCorners nd j).1 with haj
  set bj := (faceCorners nd j).2.1 with hbj
  set cj := (faceCorners nd j).2.2 with hcj
  have hdi := mtDet_ne_zero hi3
  have hdj := mtDet_ne_zero hj3
  have haffi := mt_affine hdi
  have haffj := mt_affine hdj
  set ti := mtT x u ai bi ci with hti
  set tj := mtT x u aj bj cj with htj
  set ui := mtU x u ai bi ci with hui
  set vi := mtV x u ai bi ci with hvi
  set uj := mtU x u aj bj cj with huj
  set vj := mtV x u aj bj cj with hvj
  -- the stored normal of face i annihilates the edges of face i
  have hedge1 : dot n (bi - ai) = 0 := by
    rw [hn, elementNormals_eq]; exact dot_get_normal_edge1 _ _ _ _
  have hedge2 : dot n (ci - ai) = 0 := by
    rw [hn, elementNormals_eq]; exact dot_get_normal_edge2 _ _ _ _
  -- equation of the hit point on face i: it lies on face i's plane
  have e1 : dot n x + ti * dot n u = dot n ai := by
    have := congrArg (dot n) haffi
    rw [dot_ray_expand, dot_bary_expand, hedge1, hedge2] at this
    simpa using this
  -- the hit point on face j, expanded through the same normal
  have e2 : dot n x + tj * dot n u =
      dot n aj + uj * dot n (bj - aj) + vj * dot n (cj - aj) := by
    have := congrArg (dot n) haffj
    rw [dot_ray_expand, dot_bary_expand] at this
    exact this
  -- vertex halfspace facts for the corners of face j
  have hsj1 : 0 ≤ dot n (aj - ai) :=
    normal_halfspace nd i aj (faceCorners_fst_mem nd j)
  have hsj2 : 0 ≤ dot n (bj - ai) :=
    normal_halfspace nd i bj (faceCorners_snd_mem nd j)
  have hsj3 : 0 ≤ dot n (cj - ai) :=
    normal_halfspace nd i cj (faceCorners_thd_mem nd j)
  rw [dot_sub_right] at hsj1 hsj2 hsj3
  rw [dot_sub_right, dot_sub_right] at e2
  -- the hit point of face j is inside face i's halfspace
  have idd : (dot n x + tj * dot n u) - dot n ai =
      (1 - uj - vj) * (dot n aj - dot n ai) + uj * (dot n bj - dot n ai) +
        vj * (dot n cj - dot n ai) := by
    linear_combination e2
  have key : 0 ≤ (dot n x + tj * dot n u) - dot n ai := by
    rw [idd]
    have t1 : 0 ≤ (1 - uj - vj) * (dot n aj - dot n ai) :=
      mul_nonneg (by linarith) hsj1
    have t2 : 0 ≤ uj * (dot n bj - dot n ai) := mul_nonneg hj4 hsj2
    have t3 : 0 ≤ vj * (dot n cj - dot n ai) := mul_nonneg hj6 hsj3
    linarith
  -- conclude: the ray moves strictly against n, so tj ≤ ti
  have hdnu : dot n u < 0 := by
    have : dot u n ≤ -ray_eps := hi1
    rw [dot_comm] at this
    have hre : (0 : ℝ) < ray_eps := by norm_num [ray_eps]
    linarith
  have k2eq : (dot n x + tj * dot n u) - dot n ai = (tj - ti) * dot n u := by
    linear_combination e1
  rw [k2eq] at key
  by_contra hlt
  push_neg at hlt
  have : (tj - ti) * dot n u < 0 :=
    mul_neg_of_pos_of_neg (by linarith) hdnu
  linarith

/-- All faces that pass the interior hit test at a given position and
direction share one parametric distance: a ray can cross the boundary of
the (possibly degenerate) tetrahedron in the qualifying direction at one
parameter only. -/
theorem faceHit_dist_eq (nd : Nodes) (x u : Vec3) (i j : Fin 4)
    (hi : faceHit nd x u i) (hj : faceHit nd x u j) :
    faceDist nd x u i = faceDist nd x u j :=
  le_antisymm (faceHit_le nd x u j i hj hi) (faceHit_le nd x u i j hi hj)

end EM

namespace EM

theorem dot_get_normal_opp2 (a b c d : Vec3) :
    0 ≤ dot (get_normal a b c d) (d - b) := by
  have h1 := dot_get_normal_opp a b c d
  have h2 := dot_get_normal_edge1 a b c d
  have hv : d - b = (d - a) - (b - a) := by ext <;> simp
  rw [hv, dot_sub_right, h2]
  linarith

theorem dot_get_normal_opp3 (a b c d : Vec3) :
    0 ≤ dot (get_normal a b c d) (d - c) := by
  have h1 := dot_get_normal_opp a b c d
  have h2 := dot_get_normal_edge2 a b c d
  have hv : d - c = (d - a) - (c - a) := by ext <;> simp
  rw [hv, dot_sub_right, h2]
  linarith

theorem get_normal_length {a b c d : Vec3}
    (h : cross (b - a) (c - a) ≠ ⟨0, 0, 0⟩) :
    length (get_normal a b c d) = 1 := by
  rw [get_normal]
  split_ifs
  · rw [length_neg]; exact length_normalize h
  · exact length_normalize h

/-- The validation failures of mesh construction.  The C++ raises
`std::runtime_error` with a message for each of these; the spec's error
taxonomy names them DuplicateTag, UnresolvedReference, CapacityExceeded and
NonManifoldTopology. -/
inductive MeshError where
  | capacityElems
  | capacityNodes
  | duplicateNodeTag
  | unresolvedNodeTag
  | duplicateMediumTag
  | unresolvedMediumTag
  | degenerateElement
  | nonManifold
  | emptyOctree
  | octreeTooBig
  | badRegion

/-- The process-fatal condition: `egsFatal` in
`howfar_interior_find_lost_particle` terminates the run.  The embedding
surfaces it as a distinguished outcome rather than a return value. -/
inductive FatalError where
  | infiniteLoop

/-- Embedding of `EGS_Mesh::Node` (input record). -/
structure NodeRec where
  tag : ℤ
  x : ℝ
  y : ℝ
  z : ℝ

/-- Embedding of `EGS_Mesh::Tetrahedron` (input record). -/
structure ElemRec where
  tag : ℤ
  medium_tag : ℤ
  a : ℤ
  b : ℤ
  c : ℤ
  d : ℤ

/-- Embedding of `EGS_Mesh::Medium` (input record). -/
structure MediumRec where
  tag : ℤ
  medium_name : String

/-- `std::numeric_limits<int>::max()`. -/
def intMax : ℕ := 2147483647

/-- First-match association lookup (the `find` of the C++ hash maps,
keyed by integer tag). -/
def findTag : List (ℤ × ℕ) → ℤ → Option ℕ
  | [], _ => none
  | (t, i) :: rest, t' => if t = t' then some i else findTag rest t'

/-- `std::unordered_map::insert`: inserts only if the key is absent. -/
def insertTag (m : List (ℤ × ℕ)) (t : ℤ) (i : ℕ) : List (ℤ × ℕ) :=
  match findTag m t with
  | some _ => m
  | none => m ++ [(t, i)]

def mkNodeMapAux : List NodeRec → ℕ → List (ℤ × ℕ) → List (ℤ × ℕ)
  | [], _, m => m
  | n :: rest, i, m => mkNodeMapAux rest (i + 1) (insertTag m n.tag i)

/-- The node tag → index map of `EGS_Mesh::initializeElements`. -/
def mkNodeMap (nodes : List NodeRec) : List (ℤ × ℕ) :=
  mkNodeMapAux nodes 0 []

/-- `find_node` of `initializeElements`: resolve one node tag or fail. -/
def find_node (map : List (ℤ × ℕ)) (tag : ℤ) : Except MeshError ℕ :=
  match findTag map tag with
  | some i => .ok i
  | none => .error .unresolvedNodeTag

def resolveElems (map : List (ℤ × ℕ)) :
    List ElemRec → Except MeshError (List (ℕ × ℕ × ℕ × ℕ))
  | [] => .ok []
  | e :: rest =>
    match find_node map e.a with
    | .error er => .error er
    | .ok a =>
      match find_node map e.b with
      | .error er => .error er
      | .ok b =>
        match find_node map e.c with
        | .error er => .error er
        | .ok c =>
          match find_node map e.d with
          | .error er => .error er
          | .ok d =>
            match resolveElems map rest with
            | .error er => .error er
            | .ok tail => .ok ((a, b, c, d) :: tail)

/-- The medium tag → offset map; errors immediately on a duplicate tag
(the `inserted` check of `initializeElements`). -/
def mkMediumMapAux : List MediumRec → ℕ → List (ℤ × ℕ) →
    Except MeshError (List (ℤ × ℕ))
  | [], _, m => .ok m
  | md :: rest, i, m =>
    match findTag m md.tag with
    | some _ => .error .duplicateMediumTag
    | none => mkMediumMapAux rest (i + 1) (m ++ [(md.tag, i)])

def mkMediumMap (media : List MediumRec) : Except MeshError (List (ℤ × ℕ)) :=
  mkMediumMapAux media 0 []

/-- `medium_offsets.at(...)` for each element (throws on unknown tag). -/
def resolveMedia (map : List (ℤ × ℕ)) :
    List ElemRec → Except MeshError (List ℕ)
  | [] => .ok []
  | e :: rest =>
    match findTag map e.medium_tag with
    | some i => (resolveMedia map rest).map (fun tl => i :: tl)
    | none => .error .unresolvedMediumTag

/-- The output of `EGS_Mesh::initializeElements`: contiguous 0-based
arrays. -/
structure ElementsData where
  nodesArr : List Vec3
  elemsArr : List (ℕ × ℕ × ℕ × ℕ)
  eltTags : List ℤ
  mediumIdx : List ℕ

/-- Embedding of `EGS_Mesh::initializeElements`. -/
def mkElementsData (elements : List ElemRec) (nodes : List NodeRec)
    (materials : List MediumRec) : Except MeshError ElementsData :=
  if intMax ≤ elements.length then .error .capacityElems
  else if intMax ≤ nodes.length then .error .capacityNodes
  else if (mkNodeMap nodes).length ≠ nodes.length then
    .error .duplicateNodeTag
  else
    match resolveElems (mkNodeMap nodes) elements with
    | .error er => .error er
    | .ok elemsArr =>
      match mkMediumMap materials with
      | .error er => .error er
      | .ok mediumMap =>
        match resolveMedia mediumMap elements with
        | .error er => .error er
        | .ok mediumIdx =>
          .ok ⟨nodes.map (fun n => ⟨n.x, n.y, n.z⟩), elemsArr,
            elements.map (fun e => e.tag), mediumIdx⟩

end EM

namespace EM

/-- Modelled from the spec: the element validation performed by
`mesh_neighbours::Tetrahedron` (header not in the sources): every
tetrahedron must have four distinct node indices. -/
def distinct4 (e : ℕ × ℕ × ℕ × ℕ) : Prop :=
  e.1 ≠ e.2.1 ∧ e.1 ≠ e.2.2.1 ∧ e.1 ≠ e.2.2.2 ∧
  e.2.1 ≠ e.2.2.1 ∧ e.2.1 ≠ e.2.2.2 ∧ e.2.2.1 ≠ e.2.2.2

instance distinct4Dec (e : ℕ × ℕ × ℕ × ℕ) : Decidable (distinct4 e) := by
  unfold distinct4
  infer_instance

/-- Modelled from the spec: the order-independent key of face `i` of an
element, a three-element multiset of node indices; face `i` is opposite
node `i` (face 0 = `{b,c,d}`, ..., face 3 = `{a,b,c}`). -/
def elemFaceKey (e : ℕ × ℕ × ℕ × ℕ) : Fin 4 → Multiset ℕ
  | 0 => {e.2.1, e.2.2.1, e.2.2.2}
  | 1 => {e.1, e.2.2.1, e.2.2.2}
  | 2 => {e.1, e.2.1, e.2.2.2}
  | 3 => {e.1, e.2.1, e.2.2.1}

/-- All `(element index, face slot, face key)` triples of the mesh. -/
def allFaces (elems : List (ℕ × ℕ × ℕ × ℕ)) : List (ℕ × Fin 4 × Multiset ℕ) :=
  elems.enum.flatMap (fun p =>
    [(p.1, 0, elemFaceKey p.2 0), (p.1, 1, elemFaceKey p.2 1),
     (p.1, 2, elemFaceKey p.2 2), (p.1, 3, elemFaceKey p.2 3)])

/-- The element indices of all *other* faces sharing the given key. -/
def facesMatching (fs : List (ℕ × Fin 4 × Multiset ℕ)) (ei : ℕ) (fi : Fin 4)
    (k : Multiset ℕ) : List ℕ :=
  match fs with
  | [] => []
  | g :: rest =>
    if g.2.2 = k ∧ ¬(g.1 = ei ∧ g.2.1 = fi) then
      g.1 :: facesMatching rest ei fi k
    else facesMatching rest ei fi k

/-- Modelled from the spec: `mesh_neighbours::tetrahedron_neighbours`
(the header is not among the sources).  Group the four faces of every
element by an order-independent key of its three node indices; a key
sharing two faces links the two elements as neighbours across the
matching slots, a key with a single face is a boundary face (sentinel
`-1`), and a key shared by three or more faces is a NonManifoldTopology
error. -/
def mkNeighbours (elems : List (ℕ × ℕ × ℕ × ℕ)) :
    Except MeshError (List (Fin 4 → ℤ)) :=
  if ∃ e ∈ elems, ¬distinct4 e then .error .degenerateElement
  else
    let fs := allFaces elems
    if ∃ g ∈ fs, 2 ≤ (facesMatching fs g.1 g.2.1 g.2.2).length then
      .error .nonManifold
    else
      .ok (elems.enum.map (fun p => fun i =>
        match facesMatching fs p.1 i (elemFaceKey p.2 i) with
        | [e'] => (e' : ℤ)
        | _ => -1))

/-- Embedding of `EGS_Mesh_Octree::BoundingBox`. -/
structure BBox where
  min_x : ℝ
  max_x : ℝ
  min_y : ℝ
  max_y : ℝ
  min_z : ℝ
  max_z : ℝ

namespace BBox

def mid_x (b : BBox) : ℝ := (b.min_x + b.max_x) / 2
def mid_y (b : BBox) : ℝ := (b.min_y + b.max_y) / 2
def mid_z (b : BBox) : ℝ := (b.min_z + b.max_z) / 2

/-- `BoundingBox::expand`. -/
def expand (b : BBox) (delta : ℝ) : BBox :=
  ⟨b.min_x - delta, b.max_x + delta, b.min_y - delta, b.max_y + delta,
   b.min_z - delta, b.max_z + delta⟩

/-- `BoundingBox::contains`: inclusive at the lower bound, exclusive at
the upper bound. -/
def contains (b : BBox) (p : Vec3) : Prop :=
  p.x ≥ b.min_x ∧ p.x < b.max_x ∧ p.y ≥ b.min_y ∧ p.y < b.max_y ∧
  p.z ≥ b.min_z ∧ p.z < b.max_z

/-- `BoundingBox::is_indivisible`: the floating-point subdivision floor. -/
def is_indivisible (b : BBox) : Prop :=
  approx_eq b.min_x (mid_x b) geps ∨ approx_eq b.max_x (mid_x b) geps ∨
  approx_eq b.min_y (mid_y b) geps ∨ approx_eq b.max_y (mid_y b) geps ∨
  approx_eq b.min_z (mid_z b) geps ∨ approx_eq b.max_z (mid_z b) geps

/-- `BoundingBox::divide8`: the eight octants in the S-shaped numbering of
the source. -/
def divide8 (b : BBox) : Fin 8 → BBox
  | 0 => ⟨b.min_x, mid_x b, b.min_y, mid_y b, b.min_z, mid_z b⟩
  | 1 => ⟨mid_x b, b.max_x, b.min_y, mid_y b, b.min_z, mid_z b⟩
  | 2 => ⟨b.min_x, mid_x b, mid_y b, b.max_y, b.min_z, mid_z b⟩
  | 3 => ⟨mid_x b, b.max_x, mid_y b, b.max_y, b.min_z, mid_z b⟩
  | 4 => ⟨b.min_x, mid_x b, b.min_y, mid_y b, mid_z b, b.max_z⟩
  | 5 => ⟨mid_x b, b.max_x, b.min_y, mid_y b, mid_z b, b.max_z⟩
  | 6 => ⟨b.min_x, mid_x b, mid_y b, b.max_y, mid_z b, b.max_z⟩
  | 7 => ⟨mid_x b, b.max_x, mid_y b, b.max_y, mid_z b, b.max_z⟩

/-- `BoundingBox::closest_point` (clamp to the box, Ericson 5.1.3). -/
def closest_point (b : BBox) (p : Vec3) : Vec3 :=
  ⟨if p.x > b.max_x then b.max_x else if p.x < b.min_x then b.min_x else p.x,
   if p.y > b.max_y then b.max_y else if p.y < b.min_y then b.min_y else p.y,
   if p.z > b.max_z then b.max_z else if p.z < b.min_z then b.min_z else p.z⟩

/-- `BoundingBox::min_interior_distance`. -/
def min_interior_distance (b : BBox) (p : Vec3) : ℝ :=
  min (p.x - b.min_x) (min (p.y - b.min_y) (min (p.z - b.min_z)
    (min (b.max_x - p.x) (min (b.max_y - p.y) (b.max_z - p.z)))))

/-- `Node::findOctant`: three midpoint comparisons give the octant. -/
def findOctant (b : BBox) (p : Vec3) : Fin 8 :=
  ⟨(if p.x ≥ mid_x b then 1 else 0) + (if p.y ≥ mid_y b then 2 else 0) +
     (if p.z ≥ mid_z b then 4 else 0), by split_ifs <;> norm_num⟩

/-- `BoundingBox::intersects_triangle`: the 13-axis separating-axis test
of the source, with the quick bounding reject first, the 9 edge-cross
axes (skipping near-zero cross products), the 3 box-face axes and the
triangle-normal plane test. -/
def intersects_triangle (bb : BBox) (a b c : Vec3) : Prop :=
  if min3 a.x b.x c.x ≥ bb.max_x ∨ min3 a.y b.y c.y ≥ bb.max_y ∨
     min3 a.z b.z c.z ≥ bb.max_z ∨ max3 a.x b.x c.x ≤ bb.min_x ∨
     max3 a.y b.y c.y ≤ bb.min_y ∨ max3 a.z b.z c.z ≤ bb.min_z then False
  else
    let centre : Vec3 := ⟨mid_x bb, mid_y bb, mid_z bb⟩
    let ex := (bb.max_x - bb.min_x) / 2
    let ey := (bb.max_y - bb.min_y) / 2
    let ez := (bb.max_z - bb.min_z) / 2
    let v0 := a - centre
    let v1 := b - centre
    let v2 := c - centre
    let edge_vecs : List Vec3 := [v1 - v0, v2 - v1, v0 - v2]
    let unit_vecs : List Vec3 := [⟨1, 0, 0⟩, ⟨0, 1, 0⟩, ⟨0, 0, 1⟩]
    let sep : Vec3 → Prop := fun ax =>
      ¬is_zero ax ∧
        max (-(max3 (dot v0 ax) (dot v1 ax) (dot v2 ax)))
            (min3 (dot v0 ax) (dot v1 ax) (dot v2 ax)) + geps >
          ex * |ax.x| + ey * |ax.y| + ez * |ax.z|
    if ∃ uv ∈ unit_vecs, ∃ f ∈ edge_vecs, sep (cross uv f) then False
    else if max3 v0.x v1.x v2.x ≤ -ex ∨ min3 v0.x v1.x v2.x ≥ ex ∨
            max3 v0.y v1.y v2.y ≤ -ey ∨ min3 v0.y v1.y v2.y ≥ ey ∨
            max3 v0.z v1.z v2.z ≤ -ez ∨ min3 v0.z v1.z v2.z ≥ ez then False
    else
      let n := cross (edge_vecs.getD 0 default) (edge_vecs.getD 1 default)
      let r := ex * |n.x| + ey * |n.y| + ez * |n.z|
      |dot n centre - dot n a| ≤ r

/-- `BoundingBox::intersects_tetrahedron`. -/
def intersects_tetrahedron (bb : BBox) (tet : Nodes) : Prop :=
  intersects_triangle bb tet.A tet.B tet.C ∨
  intersects_triangle bb tet.A tet.C tet.D ∨
  intersects_triangle bb tet.A tet.B tet.D ∨
  intersects_triangle bb tet.B tet.C tet.D

end BBox

end EM

namespace EM

/-- Embedding of `EGS_Mesh_Octree::Node`.  The C++ node stores a member
list and a child vector that is either empty (leaf) or has exactly 8
entries; the embedding splits the two shapes into constructors. -/
inductive ONode where
  | leaf (elts : List ℕ) (bb : BBox)
  | internal (child : Fin 8 → ONode) (bb : BBox)

namespace ONode

def bbox : ONode → BBox
  | leaf _ bb => bb
  | internal _ bb => bb

end ONode

/-- Per-element corner lookup (`EGS_Mesh::element_nodes`, header-only;
modelled from the spec: the four stored node positions of an element). -/
def mkEN (nodesArr : List Vec3) (elemsArr : List (ℕ × ℕ × ℕ × ℕ)) :
    ℕ → Nodes := fun i =>
  let e := elemsArr.getD i (0, 0, 0, 0)
  ⟨nodesArr.getD e.1 default, nodesArr.getD e.2.1 default,
   nodesArr.getD e.2.2.1 default, nodesArr.getD e.2.2.2 default⟩

/-- The members of one octant: the elements whose tetrahedron intersects
the octant box (an element may appear in several octants). -/
def filterMembers (en : ℕ → Nodes) (bb : BBox) : List ℕ → List ℕ
  | [] => []
  | e :: rest =>
    if bb.intersects_tetrahedron (en e) then e :: filterMembers en bb rest
    else filterMembers en bb rest

/-- Embedding of the recursive `Node` constructor.  The C++ recursion
terminates through `is_indivisible` (halving a box eventually reaches the
floating-point floor); over exact reals that argument is a metric one, so
the embedding carries an explicit recursion-depth fuel.  With the fuel
exhausted the node degenerates to a leaf holding all its members, which is
also what the source produces at the indivisibility floor; every concrete
mesh in this file stays far below the fuel bound. -/
def buildNode (en : ℕ → Nodes) (n_max : ℕ) :
    ℕ → List ℕ → BBox → ONode
  | 0, elts, bb => .leaf elts bb
  | fuel + 1, elts, bb =>
    if bb.is_indivisible ∨ elts.length < n_max then .leaf elts bb
    else .internal
      (fun i => buildNode en n_max fuel (filterMembers en (bb.divide8 i) elts)
        (bb.divide8 i)) bb

/-- Recursion-depth bound used when building the two octrees. -/
def octreeFuel : ℕ := 1000000

/-- Point-in-element scan of a leaf member list: the first member whose
exact point-in-tetrahedron test succeeds, else `-1`. -/
def firstInside (en : ℕ → Nodes) (x : Vec3) : List ℕ → ℤ
  | [] => -1
  | e :: rest =>
    if insideNodes (en e) x then (e : ℤ) else firstInside en x rest

/-- Embedding of `EGS_Mesh_Octree::Node::isWhere`. -/
def ONode.isWhere (en : ℕ → Nodes) (x : Vec3) : ONode → ℤ
  | .leaf elts _ => firstInside en x elts
  | .internal ch bb => (ch (bb.findOctant x)).isWhere en x

/-- The member list of the leaf reached by midpoint descent from a node.
This is not a function of the source; it names the leaf that `isWhere`
and `hownear_exterior` land in, for use in specification statements. -/
def ONode.descentElts (x : Vec3) : ONode → List ℕ
  | .leaf elts _ => elts
  | .internal ch bb => (ch (bb.findOctant x)).descentElts x

/-- The squared-distance fold of `hownear_leaf_search`. -/
def hnFold (en : ℕ → Nodes) (p : Vec3) : List ℕ → ℝ → ℝ
  | [], acc => acc
  | e :: rest, acc =>
    hnFold en p rest (min acc (distance2 p
      (closest_point_tetrahedron p (en e).A (en e).B (en e).C (en e).D)))

/-- Embedding of `Node::hownear_leaf_search`. -/
def hownear_leaf_search (en : ℕ → Nodes) (p : Vec3) (elts : List ℕ)
    (bb : BBox) : ℝ :=
  let best_dist := bb.min_interior_distance p
  Real.sqrt (hnFold en p elts (best_dist * best_dist))

/-- Embedding of `Node::hownear_exterior`. -/
def ONode.hownear_ext (en : ℕ → Nodes) (p : Vec3) : ONode → ℝ
  | .leaf elts bb => hownear_leaf_search en p elts bb
  | .internal ch bb => (ch (bb.findOctant p)).hownear_ext en p

/-- Embedding of `EGS_Mesh_Octree` (the root node wrapper). -/
structure Octree where
  root : ONode

/-- Per-element bounding box seeds (`tet_min_x` ... `tet_max_z`). -/
def tet_min_x (n : Nodes) : ℝ := min n.A.x (min n.B.x (min n.C.x n.D.x))
def tet_max_x (n : Nodes) : ℝ := max n.A.x (max n.B.x (max n.C.x n.D.x))
def tet_min_y (n : Nodes) : ℝ := min n.A.y (min n.B.y (min n.C.y n.D.y))
def tet_max_y (n : Nodes) : ℝ := max n.A.y (max n.B.y (max n.C.y n.D.y))
def tet_min_z (n : Nodes) : ℝ := min n.A.z (min n.B.z (min n.C.z n.D.z))
def tet_max_z (n : Nodes) : ℝ := max n.A.z (max n.B.z (max n.C.z n.D.z))

def tetBBox (n : Nodes) : BBox :=
  ⟨tet_min_x n, tet_max_x n, tet_min_y n, tet_max_y n, tet_min_z n,
   tet_max_z n⟩

/-- One step of the global-bound loop of the `EGS_Mesh_Octree`
constructor. -/
def growBBox (bb : BBox) (n : Nodes) : BBox :=
  ⟨min bb.min_x (tet_min_x n), max bb.max_x (tet_max_x n),
   min bb.min_y (tet_min_y n), max bb.max_y (tet_max_y n),
   min bb.min_z (tet_min_z n), max bb.max_z (tet_max_z n)⟩

/-- The union bounding box of a nonempty member list.  The C++ seeds the
fold with `(+inf, -inf, ...)`; over the reals the same fold is seeded with
the first member's box, which gives the identical result for the nonempty
lists the constructor admits (it rejects empty lists first). -/
def unionBBox (en : ℕ → Nodes) (e : ℕ) (rest : List ℕ) : BBox :=
  rest.foldl (fun bb i => growBBox bb (en i)) (growBBox (tetBBox (en e)) (en e))

/-- Embedding of the `EGS_Mesh_Octree` constructor: reject an empty or
oversized member list, take the union bounding box expanded by `1e-8`, and
build the root node. -/
def mkOctree (en : ℕ → Nodes) (elts : List ℕ) (n_max : ℕ) :
    Except MeshError Octree :=
  match elts with
  | [] => .error .emptyOctree
  | e :: rest =>
    if intMax < (e :: rest).length then .error .octreeTooBig
    else .ok ⟨buildNode en n_max octreeFuel (e :: rest)
      ((unionBBox en e rest).expand 1e-8)⟩

/-- Embedding of `EGS_Mesh_Octree::isWhere`. -/
def Octree.isWhere (t : Octree) (en : ℕ → Nodes) (p : Vec3) : ℤ :=
  if ¬t.root.bbox.contains p then -1 else t.root.isWhere en p

/-- Embedding of `EGS_Mesh_Octree::hownear_exterior`. -/
def Octree.hownear_ext (t : Octree) (en : ℕ → Nodes) (p : Vec3) : ℝ :=
  if ¬t.root.bbox.contains p then distance (t.root.bbox.closest_point p) p
  else t.root.hownear_ext en p

end EM

namespace EM

/-- Embedding of the constructed `EGS_Mesh`: the immutable arrays built by
`initializeElements`, `initializeNeighbours`, `initializeNormals` and
`initializeOctrees`, plus the per-geometry half boundary tolerance
(`EGS_BaseGeometry::halfBoundaryTolerance`, configurable through
`setBoundaryTolerance`; modelled from the spec as a fixed per-mesh
constant since `egs_base_geometry` is not among the sources). -/
structure Mesh where
  nodes : List Vec3
  elems : List (ℕ × ℕ × ℕ × ℕ)
  eltTags : List ℤ
  mediumIdx : List ℕ
  neighbours : List (Fin 4 → ℤ)
  faceNormals : List (Fin 4 → Vec3)
  volumeTree : Octree
  surfaceTree : Octree
  halfBoundaryTolerance : ℝ

namespace Mesh

def num_elements (m : Mesh) : ℕ := m.elems.length

def element_nodes (m : Mesh) (i : ℕ) : Nodes := mkEN m.nodes m.elems i

def normal (m : Mesh) (e : ℕ) (i : Fin 4) : Vec3 :=
  (m.faceNormals.getD e (fun _ => default)) i

def neighbour (m : Mesh) (e : ℕ) (i : Fin 4) : ℤ :=
  (m.neighbours.getD e (fun _ => -1)) i

/-- Embedding of `EGS_Mesh::insideElement`. -/
def insideElement (m : Mesh) (i : ℕ) (x : Vec3) : Prop :=
  insideNodes (m.element_nodes i) x

/-- Embedding of `EGS_Mesh::isWhere` (delegates to the volume tree). -/
def isWhere (m : Mesh) (x : Vec3) : ℤ :=
  m.volumeTree.isWhere (mkEN m.nodes m.elems) x

/-- Embedding of `EGS_Mesh::is_boundary` (header-only; modelled from the
spec: an element is a boundary element iff one of its four neighbour
entries is the sentinel, which is exactly the derived boundary-face
flag). -/
def is_boundary (m : Mesh) (e : ℕ) : Prop :=
  ∃ i : Fin 4, m.neighbour e i = -1

end Mesh

/-- Embedding of `distance_to_plane` (absolute distance to a plane with a
unit normal). -/
def distance_to_plane (x unit_plane_normal plane_point : Vec3) : ℝ :=
  |dot unit_plane_normal (x - plane_point)|

/-- Embedding of `EGS_Mesh::min_interior_face_dist`: the minimum of the
four stored-normal plane distances, with the base points the source uses
(`n.B` for face 0 and `n.A` for faces 1, 2, 3). -/
def Mesh.min_interior_face_dist (m : Mesh) (ireg : ℕ) (x : Vec3) : ℝ :=
  let n := m.element_nodes ireg
  min (min (min (distance_to_plane x (m.normal ireg 0) n.B)
    (distance_to_plane x (m.normal ireg 1) n.A))
    (distance_to_plane x (m.normal ireg 2) n.A))
    (distance_to_plane x (m.normal ireg 3) n.A)

/-- Embedding of `EGS_Mesh::min_exterior_face_dist`. -/
def Mesh.min_exterior_face_dist (m : Mesh) (x : Vec3) : ℝ :=
  m.surfaceTree.hownear_ext (mkEN m.nodes m.elems) x

/-- Embedding of `EGS_Mesh::hownear`: an out-of-range region index throws
(a per-call QueryPrecondition error); `ireg ≥ 0` is the interior branch
and a negative `ireg` the exterior branch. -/
def Mesh.hownear (m : Mesh) (ireg : ℤ) (x : Vec3) : Except MeshError ℝ :=
  if ireg > 0 ∧ ireg > (m.num_elements : ℤ) - 1 then .error .badRegion
  else if 0 ≤ ireg then .ok (m.min_interior_face_dist ireg.toNat x)
  else .ok (m.min_exterior_face_dist x)

/-- The neighbour scan of `howfar_interior_find_lost_particle`: the first
non-sentinel neighbour containing the position. -/
def findLostLoop (m : Mesh) (x : Vec3) : List ℤ → Option ℤ
  | [] => none
  | nb :: rest =>
    if nb = -1 then findLostLoop m x rest
    else if insideNodes (m.element_nodes nb.toNat) x then some nb
    else findLostLoop m x rest

/-- Embedding of `EGS_Mesh::howfar_interior_find_lost_particle`: check the
up-to-4 neighbours, then fall back to a full `isWhere`; if that relocates
the particle to the same region the C++ calls `egsFatal`, which terminates
the process — modelled as the distinguished `FatalError` outcome. -/
def Mesh.howfar_interior_find_lost_particle (m : Mesh) (ireg : ℕ)
    (x : Vec3) : Except FatalError ℤ :=
  match findLostLoop m x
      [m.neighbour ireg 0, m.neighbour ireg 1, m.neighbour ireg 2,
       m.neighbour ireg 3] with
  | some nb => .ok nb
  | none =>
    let newreg := m.isWhere x
    if newreg = (ireg : ℤ) then .error .infiniteLoop else .ok newreg

/-- The face loop of `EGS_Mesh::howfar_interior`, with the mutable
`(is_lost, dist)` state made explicit and the out parameters `t` and
`newreg` (plus the index of the reported face, when a face is reported)
collected in the result.  The `newmed`/`normal` out parameters are value
projections of `newreg` and the reported face and are not modelled. -/
def hfLoop (m : Mesh) (ireg : ℕ) (x u : Vec3) (t : ℝ) :
    List (Fin 4) → Bool → ℝ → Except FatalError (ℤ × ℝ × Option (Fin 4))
  | [], isLost, _ =>
    if isLost then
      (m.howfar_interior_find_lost_particle ireg x).map
        (fun nr => (nr, 0, none))
    else .ok ((ireg : ℤ), t, none)
  | i :: rest, isLost, dist =>
    let nd := m.element_nodes ireg
    let fc := faceCorners nd i
    if 0 ≤ dot (m.normal ireg i) (x - fc.1) then
      let r := interior_triangle_ray_intersection x u (m.normal ireg i)
        fc.1 fc.2.1 fc.2.2 dist
      if r.1 then
        if r.2 > t then hfLoop m ireg x u t rest false r.2
        else .ok (m.neighbour ireg i,
          if r.2 ≤ m.halfBoundaryTolerance then 0 else r.2, some i)
      else hfLoop m ireg x u t rest isLost r.2
    else hfLoop m ireg x u t rest isLost dist

/-- Embedding of `EGS_Mesh::howfar_interior`. -/
def Mesh.howfar_interior (m : Mesh) (ireg : ℕ) (x u : Vec3) (t : ℝ) :
    Except FatalError (ℤ × ℝ × Option (Fin 4)) :=
  hfLoop m ireg x u t [0, 1, 2, 3] true 1e30

/-- The indices of the boundary elements, in region order (the
`boundary_elts` loop of `initializeOctrees`). -/
def filterBoundary (nb : List (Fin 4 → ℤ)) : List ℕ → List ℕ
  | [] => []
  | e :: rest =>
    if ∃ i : Fin 4, (nb.getD e (fun _ => -1)) i = -1 then
      e :: filterBoundary nb rest
    else filterBoundary nb rest

/-- The stored face normals (`initializeNormals`). -/
def mkNormals (en : ℕ → Nodes) (n : ℕ) : List (Fin 4 → Vec3) :=
  (List.range n).map (fun e => elementNormals (en e))

/-- Embedding of the `EGS_Mesh` constructor: `initializeElements`,
`initializeNeighbours`, `initializeOctrees` (volume tree over all
elements with leaf threshold 200, surface tree over boundary elements
with threshold 100) and `initializeNormals`, failing atomically on the
first validation error. -/
def construct (elements : List ElemRec) (nodes : List NodeRec)
    (materials : List MediumRec) (tol : ℝ) : Except MeshError Mesh :=
  match mkElementsData elements nodes materials with
  | .error er => .error er
  | .ok ed =>
    match mkNeighbours ed.elemsArr with
    | .error er => .error er
    | .ok nb =>
      match mkOctree (mkEN ed.nodesArr ed.elemsArr)
          (List.range ed.elemsArr.length) 200 with
      | .error er => .error er
      | .ok vol =>
        match mkOctree (mkEN ed.nodesArr ed.elemsArr)
            (filterBoundary nb (List.range ed.elemsArr.length)) 100 with
        | .error er => .error er
        | .ok surf =>
          .ok ⟨ed.nodesArr, ed.elemsArr, ed.eltTags, ed.mediumIdx, nb,
            mkNormals (mkEN ed.nodesArr ed.elemsArr) ed.elemsArr.length,
            vol, surf, tol⟩

end EM

namespace EM

/-- The full qualification test `howfar_interior` applies to face `i`:
the outer plane-side guard together with the interior ray-triangle hit. -/
def Mesh.faceQual (m : Mesh) (ireg : ℕ) (x u : Vec3) (i : Fin 4) : Prop :=
  0 ≤ dot (m.normal ireg i) (x - (faceCorners (m.element_nodes ireg) i).1) ∧
  interiorHit x u (m.normal ireg i) (faceCorners (m.element_nodes ireg) i).1
    (faceCorners (m.element_nodes ireg) i).2.1
    (faceCorners (m.element_nodes ireg) i).2.2

theorem hfLoop_face_spec (m : Mesh) (ireg : ℕ) (x u : Vec3) (t : ℝ)
    (l : List (Fin 4)) (isLost : Bool) (dist : ℝ) (reg : ℤ) (t' : ℝ)
    (i : Fin 4)
    (h : hfLoop m ireg x u t l isLost dist = .ok (reg, t', some i)) :
    i ∈ l ∧ m.faceQual ireg x u i ∧
    faceDist (m.element_nodes ireg) x u i ≤ t ∧
    t' = (if faceDist (m.element_nodes ireg) x u i ≤
      m.halfBoundaryTolerance then 0 else
        faceDist (m.element_nodes ireg) x u i) ∧
    reg = m.neighbour ireg i := by
  induction l generalizing isLost dist with
  | nil =>
    exfalso
    simp only [hfLoop] at h
    split_ifs at h with hl
    · rcases hfl : m.howfar_interior_find_lost_particle ireg x with e | nr <;>
        simp [hfl, Except.map] at h
    · simp at h
  | cons i' rest ih =>
    simp only [hfLoop] at h
    by_cases houter :
        0 ≤ dot (m.normal ireg i') (x - (faceCorners (m.element_nodes ireg) i').1)
    · rw [if_pos houter] at h
      by_cases hhit : (interior_triangle_ray_intersection x u (m.normal ireg i')
          (faceCorners (m.element_nodes ireg) i').1
          (faceCorners (m.element_nodes ireg) i').2.1
          (faceCorners (m.element_nodes ireg) i').2.2 dist).1 = true
      · have hq : interiorHit x u (m.normal ireg i')
            (faceCorners (m.element_nodes ireg) i').1
            (faceCorners (m.element_nodes ireg) i').2.1
            (faceCorners (m.element_nodes ireg) i').2.2 :=
          hit_of_interior_true hhit
        have req := interior_eq_of_hit hq dist
        rw [if_pos hhit, req] at h
        simp only [] at h
        by_cases hgt : mtT x u (faceCorners (m.element_nodes ireg) i').1
            (faceCorners (m.element_nodes ireg) i').2.1
            (faceCorners (m.element_nodes ireg) i').2.2 > t
        · rw [if_pos hgt] at h
          obtain ⟨hmem, rest'⟩ := ih false _ h
          exact ⟨List.mem_cons_of_mem _ hmem, rest'⟩
        · rw [if_neg hgt] at h
          simp only [Except.ok.injEq, Prod.mk.injEq, Option.some.injEq] at h
          obtain ⟨hreg, ht', hii⟩ := h
          subst hii
          push_neg at hgt
          exact ⟨List.mem_cons_self _ _, ⟨houter, hq⟩, hgt, ht'.symm, hreg.symm⟩
      · rw [if_neg hhit] at h
        obtain ⟨hmem, rest'⟩ := ih isLost _ h
        exact ⟨List.mem_cons_of_mem _ hmem, rest'⟩
    · rw [if_neg houter] at h
      obtain ⟨hmem, rest'⟩ := ih isLost _ h
      exact ⟨List.mem_cons_of_mem _ hmem, rest'⟩

theorem hfLoop_no_qual (m : Mesh) (ireg : ℕ) (x u : Vec3) (t : ℝ)
    (l : List (Fin 4)) (d : ℝ)
    (h : ∀ i ∈ l, ¬m.faceQual ireg x u i) :
    hfLoop m ireg x u t l true d =
      (m.howfar_interior_find_lost_particle ireg x).map
        (fun nr => (nr, 0, none)) := by
  induction l generalizing d with
  | nil => simp [hfLoop]
  | cons i' rest ih =>
    simp only [hfLoop]
    by_cases houter :
        0 ≤ dot (m.normal ireg i') (x - (faceCorners (m.element_nodes ireg) i').1)
    · rw [if_pos houter]
      by_cases hhit : (interior_triangle_ray_intersection x u (m.normal ireg i')
          (faceCorners (m.element_nodes ireg) i').1
          (faceCorners (m.element_nodes ireg) i').2.1
          (faceCorners (m.element_nodes ireg) i').2.2 d).1 = true
      · exact absurd ⟨houter, hit_of_interior_true hhit⟩
          (h i' (List.mem_cons_self _ _))
      · rw [if_neg hhit]
        exact ih _ (fun j hj => h j (List.mem_cons_of_mem _ hj))
    · rw [if_neg houter]
      exact ih _ (fun j hj => h j (List.mem_cons_of_mem _ hj))

theorem findLostLoop_eq_find (m : Mesh) (x : Vec3) (l : List ℤ) :
    findLostLoop m x l =
      l.find? (fun nb =>
        decide (nb ≠ -1 ∧ insideNodes (m.element_nodes nb.toNat) x)) := by
  induction l with
  | nil => simp [findLostLoop]
  | cons nb rest ih =>
    simp only [findLostLoop, List.find?]
    split_ifs with h1 h2
    · subst h1
      simp only [ih]
      have : decide ((-1 : ℤ) ≠ -1 ∧
          insideNodes (m.element_nodes (-1 : ℤ).toNat) x) = false := by
        simp
      rw [this]
    · have : decide (nb ≠ -1 ∧
          insideNodes (m.element_nodes nb.toNat) x) = true := by
        simp [h1, h2]
      rw [this]
    · have : decide (nb ≠ -1 ∧
          insideNodes (m.element_nodes nb.toNat) x) = false := by
        simp [h1, h2]
      rw [this, ih]

/-- Inversion of a successful construction: the stage outputs that the
mesh fields are assembled from. -/
theorem construct_ok_inv {elements : List ElemRec} {nodes : List NodeRec}
    {materials : List MediumRec} {tol : ℝ} {m : Mesh}
    (h : construct elements nodes materials tol = .ok m) :
    ∃ ed nb vol surf,
      mkElementsData elements nodes materials = .ok ed ∧
      mkNeighbours ed.elemsArr = .ok nb ∧
      mkOctree (mkEN ed.nodesArr ed.elemsArr)
        (List.range ed.elemsArr.length) 200 = .ok vol ∧
      mkOctree (mkEN ed.nodesArr ed.elemsArr)
        (filterBoundary nb (List.range ed.elemsArr.length)) 100 = .ok surf ∧
      m = ⟨ed.nodesArr, ed.elemsArr, ed.eltTags, ed.mediumIdx, nb,
        mkNormals (mkEN ed.nodesArr ed.elemsArr) ed.elemsArr.length,
        vol, surf, tol⟩ := by
  rw [construct] at h
  rcases h1 : mkElementsData elements nodes materials with er | ed <;>
    simp only [h1] at h
  · exact absurd h (by simp)
  rcases h2 : mkNeighbours ed.elemsArr with er | nb <;> simp only [h2] at h
  · exact absurd h (by simp)
  rcases h3 : mkOctree (mkEN ed.nodesArr ed.elemsArr)
      (List.range ed.elemsArr.length) 200 with er | vol <;> simp only [h3] at h
  · exact absurd h (by simp)
  rcases h4 : mkOctree (mkEN ed.nodesArr ed.elemsArr)
      (filterBoundary nb (List.range ed.elemsArr.length)) 100 with er | surf <;>
    simp only [h4] at h
  · exact absurd h (by simp)
  simp only [Except.ok.injEq] at h
  exact ⟨ed, nb, vol, surf, rfl, h2, h3, h4, h.symm⟩

theorem getD_range_map {α : Type} (f : ℕ → α) (n k : ℕ) (d : α)
    (hk : k < n) : ((List.range n).map f).getD k d = f k := by
  rw [List.getD_eq_getElem?_getD, List.getElem?_map, List.getElem?_range hk]
  rfl

/-- For a constructed mesh the stored face normals of a valid region are
exactly the `get_normal` values of its corners. -/
theorem constructed_normal {elements : List ElemRec} {nodes : List NodeRec}
    {materials : List MediumRec} {tol : ℝ} {m : Mesh}
    (h : construct elements nodes materials tol = .ok m)
    {ireg : ℕ} (hr : ireg < m.num_elements) (i : Fin 4) :
    m.normal ireg i = elementNormals (m.element_nodes ireg) i := by
  obtain ⟨ed, nb, vol, surf, h1, h2, h3, h4, hm⟩ := construct_ok_inv h
  subst hm
  simp only [Mesh.normal, Mesh.element_nodes, Mesh.num_elements] at hr ⊢
  rw [mkNormals, getD_range_map _ _ _ _ hr]

end EM

namespace EM

theorem firstInside_spec (en : ℕ → Nodes) (x : Vec3) (l : List ℕ)
    (h : firstInside en x l ≠ -1) :
    ∃ e ∈ l, firstInside en x l = (e : ℤ) ∧ insideNodes (en e) x := by
  induction l with
  | nil => simp [firstInside] at h
  | cons e rest ih =>
    rw [firstInside] at h ⊢
    split_ifs at h ⊢ with he
    · exact ⟨e, List.mem_cons_self _ _, rfl, he⟩
    · obtain ⟨e', hmem, heq, hin⟩ := ih h
      exact ⟨e', List.mem_cons_of_mem _ hmem, heq, hin⟩

theorem ONode.isWhere_mem_sound (en : ℕ → Nodes) (x : Vec3) (nd : ONode)
    (h : nd.isWhere en x ≠ -1) :
    ∃ e : ℕ, nd.isWhere en x = (e : ℤ) ∧ insideNodes (en e) x := by
  induction nd with
  | leaf elts bb =>
    rw [ONode.isWhere] at h ⊢
    obtain ⟨e, _, heq, hin⟩ := firstInside_spec en x elts h
    exact ⟨e, heq, hin⟩
  | internal ch bb ih =>
    rw [ONode.isWhere] at h ⊢
    exact ih _ h

/-- `isWhere` descends to one leaf and scans it: the result is the first
containing member of the leaf that midpoint descent reaches. -/
theorem ONode.isWhere_eq_descent (en : ℕ → Nodes) (x : Vec3) (nd : ONode) :
    nd.isWhere en x = firstInside en x (nd.descentElts x) := by
  induction nd with
  | leaf elts bb => rfl
  | internal ch bb ih => exact ih _

theorem Mesh.isWhere_elt_sound (m : Mesh) (x : Vec3)
    (h : m.isWhere x ≠ -1) :
    ∃ e : ℕ, m.isWhere x = (e : ℤ) ∧ m.insideElement e x := by
  rw [Mesh.isWhere, Octree.isWhere] at h ⊢
  split_ifs at h ⊢ with hc
  · exact ONode.isWhere_mem_sound _ x _ h
  · simp at h

end EM

namespace EM

/-- Concrete input records: one tetrahedron with corners `(0,0,0)`,
`(4,0,0)`, `(0,4,0)`, `(0,0,8)` (all four face normals are rational). -/
def bigNodes : List NodeRec := [⟨1, 0, 0, 0⟩, ⟨2, 4, 0, 0⟩, ⟨3, 0, 4, 0⟩, ⟨4, 0, 0, 8⟩]

def bigElems : List ElemRec := [⟨1, 1, 1, 2, 3, 4⟩]

def bigMedia : List MediumRec := [⟨1, "m"⟩]

/-- The half boundary tolerance configured for the concrete meshes. -/
def bigTol : ℝ := 1 / 1000

def bigNodesArr : List Vec3 := [⟨0, 0, 0⟩, ⟨4, 0, 0⟩, ⟨0, 4, 0⟩, ⟨0, 0, 8⟩]

def bigEN : ℕ → Nodes := mkEN bigNodesArr [(0, 1, 2, 3)]

def bigTet : Nodes := ⟨⟨0, 0, 0⟩, ⟨4, 0, 0⟩, ⟨0, 4, 0⟩, ⟨0, 0, 8⟩⟩

def bigBox : BBox := ⟨0 - 1e-8, 4 + 1e-8, 0 - 1e-8, 4 + 1e-8, 0 - 1e-8, 8 + 1e-8⟩

def bigMesh : Mesh :=
  ⟨bigNodesArr, [(0, 1, 2, 3)], [1], [0], [fun _ => -1], mkNormals bigEN 1,
   ⟨.leaf [0] bigBox⟩, ⟨.leaf [0] bigBox⟩, bigTol⟩

theorem big_ed : mkElementsData bigElems bigNodes bigMedia =
    .ok ⟨bigNodesArr, [(0, 1, 2, 3)], [1], [0]⟩ := by
  simp [mkElementsData, bigElems, bigNodes, bigMedia, intMax, mkNodeMap,
    mkNodeMapAux, insertTag, findTag, resolveElems, find_node, mkMediumMap,
    mkMediumMapAux, resolveMedia, bigNodesArr, Except.map]

theorem big_nb : mkNeighbours [(0, 1, 2, 3)] = .ok [fun _ => (-1 : ℤ)] := by
  rw [mkNeighbours]
  rw [if_neg (by decide)]
  rw [if_neg (by decide)]
  refine congrArg Except.ok ?_
  rw [show List.enum [((0:ℕ), (1:ℕ), (2:ℕ), (3:ℕ))] = [(0, (0, 1, 2, 3))]
    by decide]
  simp only [List.map_cons, List.map_nil, List.cons.injEq, and_true]
  funext i
  fin_cases i <;> decide

theorem big_en0 : bigEN 0 = bigTet := by
  simp [bigEN, mkEN, bigNodesArr, bigTet, List.getD]

theorem big_unionBBox : (unionBBox bigEN 0 []).expand 1e-8 = bigBox := by
  rw [unionBBox]
  rw [big_en0]
  simp only [List.foldl]
  simp only [growBBox, tetBBox, tet_min_x, tet_max_x, tet_min_y, tet_max_y,
    tet_min_z, tet_max_z, bigTet, BBox.expand, bigBox]
  norm_num

theorem big_buildNode (bb : BBox) :
    buildNode bigEN 200 octreeFuel [0] bb = .leaf [0] bb := by
  rw [show octreeFuel = 999999 + 1 by norm_num [octreeFuel]]
  rw [buildNode]
  rw [if_pos (Or.inr (by norm_num))]

theorem big_vol : mkOctree bigEN (List.range 1) 200 =
    .ok ⟨.leaf [0] bigBox⟩ := by
  rw [show List.range 1 = [0] by decide]
  rw [mkOctree]
  simp only [List.length_cons, List.length_nil]
  rw [if_neg (by norm_num [intMax])]
  rw [big_unionBBox, big_buildNode]

theorem big_filterBoundary :
    filterBoundary [fun _ => (-1 : ℤ)] (List.range 1) = [0] := by
  rw [show List.range 1 = [0] by decide]
  rw [filterBoundary]
  rw [if_pos ⟨0, rfl⟩]
  rfl

theorem big_surf : mkOctree bigEN [0] 100 = .ok ⟨.leaf [0] bigBox⟩ := by
  rw [mkOctree]
  simp only [List.length_cons, List.length_nil]
  rw [if_neg (by norm_num [intMax])]
  have hb : buildNode bigEN 100 octreeFuel [0] ((unionBBox bigEN 0 []).expand 1e-8) =
      .leaf [0] ((unionBBox bigEN 0 []).expand 1e-8) := by
    rw [show octreeFuel = 999999 + 1 by norm_num [octreeFuel]]
    rw [buildNode]
    rw [if_pos (Or.inr (by norm_num))]
  rw [hb, big_unionBBox]

theorem big_construct : construct bigElems bigNodes bigMedia bigTol =
    .ok bigMesh := by
  rw [construct, big_ed]
  simp only []
  rw [big_nb]
  simp only []
  rw [show ([((0:ℕ), (1:ℕ), (2:ℕ), (3:ℕ))] : List (ℕ × ℕ × ℕ × ℕ)).length = 1
    from rfl]
  rw [show mkEN bigNodesArr [(0, 1, 2, 3)] = bigEN from rfl]
  rw [big_vol]
  simp only []
  rw [big_filterBoundary, big_surf]
  rfl

end EM

namespace EM

theorem bigMesh_element_nodes : bigMesh.element_nodes 0 = bigTet := big_en0

theorem bigMesh_normal (i : Fin 4) :
    bigMesh.normal 0 i = elementNormals bigTet i := by
  show (bigMesh.faceNormals.getD 0 (fun _ => default)) i = _
  have : bigMesh.faceNormals = mkNormals bigEN 1 := rfl
  rw [this, mkNormals, getD_range_map _ _ _ _ (by norm_num), big_en0]

theorem bigN0 : elementNormals bigTet 0 = ⟨-(2/3), -(2/3), -(1/3)⟩ := by
  have hc : cross (bigTet.C - bigTet.B) (bigTet.D - bigTet.B) =
      ⟨32, 32, 16⟩ := by
    ext <;> simp [cross, bigTet] <;> norm_num
  have hl : length (⟨32, 32, 16⟩ : Vec3) = 48 := by
    norm_num [length, length2, dot]
    rw [show (2304 : ℝ) = 48 ^ 2 by norm_num, Real.sqrt_sq (by norm_num)]
  have hn : normalize (cross (bigTet.C - bigTet.B) (bigTet.D - bigTet.B)) =
      ⟨2/3, 2/3, 1/3⟩ := by
    rw [hc, normalize, hl]
    ext <;> simp <;> norm_num
  show get_normal bigTet.B bigTet.C bigTet.D bigTet.A = _
  rw [get_normal]
  simp only [hn]
  rw [if_pos (by norm_num [dot, bigTet])]
  ext <;> simp

theorem bigN1 : elementNormals bigTet 1 = ⟨1, 0, 0⟩ := by
  have hc : cross (bigTet.C - bigTet.A) (bigTet.D - bigTet.A) =
      ⟨32, 0, 0⟩ := by
    ext <;> simp [cross, bigTet] <;> norm_num
  have hl : length (⟨32, 0, 0⟩ : Vec3) = 32 := by
    norm_num [length, length2, dot]
    rw [show (1024 : ℝ) = 32 ^ 2 by norm_num, Real.sqrt_sq (by norm_num)]
  have hn : normalize (cross (bigTet.C - bigTet.A) (bigTet.D - bigTet.A)) =
      ⟨1, 0, 0⟩ := by
    rw [hc, normalize, hl]
    ext <;> simp <;> norm_num
  show get_normal bigTet.A bigTet.C bigTet.D bigTet.B = _
  rw [get_normal]
  simp only [hn]
  rw [if_neg (by norm_num [dot, bigTet])]

theorem bigN2 : elementNormals bigTet 2 = ⟨0, 1, 0⟩ := by
  have hc : cross (bigTet.B - bigTet.A) (bigTet.D - bigTet.A) =
      ⟨0, -32, 0⟩ := by
    ext <;> simp [cross, bigTet] <;> norm_num
  have hl : length (⟨0, -32, 0⟩ : Vec3) = 32 := by
    norm_num [length, length2, dot]
    rw [show (1024 : ℝ) = 32 ^ 2 by norm_num, Real.sqrt_sq (by norm_num)]
  have hn : normalize (cross (bigTet.B - bigTet.A) (bigTet.D - bigTet.A)) =
      ⟨0, -1, 0⟩ := by
    rw [hc, normalize, hl]
    ext <;> simp <;> norm_num
  show get_normal bigTet.A bigTet.B bigTet.D bigTet.C = _
  rw [get_normal]
  simp only [hn]
  rw [if_pos (by norm_num [dot, bigTet])]
  ext <;> simp

theorem bigN3 : elementNormals bigTet 3 = ⟨0, 0, 1⟩ := by
  have hc : cross (bigTet.B - bigTet.A) (bigTet.C - bigTet.A) =
      ⟨0, 0, 16⟩ := by
    ext <;> simp [cross, bigTet] <;> norm_num
  have hl : length (⟨0, 0, 16⟩ : Vec3) = 16 := by
    norm_num [length, length2, dot]
    rw [show (256 : ℝ) = 16 ^ 2 by norm_num, Real.sqrt_sq (by norm_num)]
  have hn : normalize (cross (bigTet.B - bigTet.A) (bigTet.C - bigTet.A)) =
      ⟨0, 0, 1⟩ := by
    rw [hc, normalize, hl]
    ext <;> simp <;> norm_num
  show get_normal bigTet.A bigTet.B bigTet.C bigTet.D = _
  rw [get_normal]
  simp only [hn]
  rw [if_neg (by norm_num [dot, bigTet])]

end EM

namespace EM

/-- C1 (counterexample): the claim says every stored face normal satisfies
`dot(normal, opposite - face vertex) ≤ 0` (outward).  On the concretely
constructed one-element mesh, face 1 of region 0 has stored normal
`(1,0,0)` and opposite vertex `B = (4,0,0)`, so that dot product is
`4 > 0`: the stored normals point *toward* the opposite vertex, not away
from it. -/
theorem face_normal_oriented_away_cx :
    construct bigElems bigNodes bigMedia bigTol = .ok bigMesh ∧
    0 < dot (bigMesh.normal 0 1)
      (oppositeVertex (bigMesh.element_nodes 0) 1 -
        (faceCorners (bigMesh.element_nodes 0) 1).1) := by
  refine ⟨big_construct, ?_⟩
  rw [bigMesh_normal, bigMesh_element_nodes, bigN1]
  show (0 : ℝ) < dot ⟨1, 0, 0⟩ (bigTet.B - bigTet.A)
  norm_num [dot, bigTet]

/-- C1 (amended): for every constructed mesh, region and face with a
nondegenerate corner cross product, the stored face normal is a unit
vector consistently oriented *toward* the opposite vertex (inward): its
dot product with (opposite vertex minus any vertex of face i) is
non-negative. -/
theorem stored_face_normals_unit_and_toward_opposite
    {elements : List ElemRec} {nodes : List NodeRec}
    {materials : List MediumRec} {tol : ℝ} {m : Mesh}
    (h : construct elements nodes materials tol = .ok m)
    {ireg : ℕ} (hr : ireg < m.num_elements) (i : Fin 4)
    (hnd : cross ((faceCorners (m.element_nodes ireg) i).2.1 -
        (faceCorners (m.element_nodes ireg) i).1)
      ((faceCorners (m.element_nodes ireg) i).2.2 -
        (faceCorners (m.element_nodes ireg) i).1) ≠ ⟨0, 0, 0⟩) :
    length (m.normal ireg i) = 1 ∧
    0 ≤ dot (m.normal ireg i)
      (oppositeVertex (m.element_nodes ireg) i -
        (faceCorners (m.element_nodes ireg) i).1) ∧
    0 ≤ dot (m.normal ireg i)
      (oppositeVertex (m.element_nodes ireg) i -
        (faceCorners (m.element_nodes ireg) i).2.1) ∧
    0 ≤ dot (m.normal ireg i)
      (oppositeVertex (m.element_nodes ireg) i -
        (faceCorners (m.element_nodes ireg) i).2.2) := by
  rw [constructed_normal h hr i, elementNormals_eq]
  exact ⟨get_normal_length hnd, dot_get_normal_opp _ _ _ _,
    dot_get_normal_opp2 _ _ _ _, dot_get_normal_opp3 _ _ _ _⟩

theorem big_cross1 :
    cross ((faceCorners bigTet 1).2.1 - (faceCorners bigTet 1).1)
      ((faceCorners bigTet 1).2.2 - (faceCorners bigTet 1).1) =
    (⟨32, 0, 0⟩ : Vec3) := by
  show cross (bigTet.C - bigTet.A) (bigTet.D - bigTet.A) = _
  ext <;> simp [cross, bigTet] <;> norm_num

theorem stored_face_normals_unit_and_toward_opposite_witness :
    (construct bigElems bigNodes bigMedia bigTol = .ok bigMesh ∧
      0 < bigMesh.num_elements ∧
      cross ((faceCorners (bigMesh.element_nodes 0) 1).2.1 -
          (faceCorners (bigMesh.element_nodes 0) 1).1)
        ((faceCorners (bigMesh.element_nodes 0) 1).2.2 -
          (faceCorners (bigMesh.element_nodes 0) 1).1) ≠ ⟨0, 0, 0⟩) ∧
    length (bigMesh.normal 0 1) = 1 := by
  have hnd : cross ((faceCorners (bigMesh.element_nodes 0) 1).2.1 -
      (faceCorners (bigMesh.element_nodes 0) 1).1)
      ((faceCorners (bigMesh.element_nodes 0) 1).2.2 -
        (faceCorners (bigMesh.element_nodes 0) 1).1) ≠ (⟨0, 0, 0⟩ : Vec3) := by
    rw [bigMesh_element_nodes, big_cross1]
    intro hcon
    have := congrArg Vec3.x hcon
    norm_num at this
  have hn : (0 : ℕ) < bigMesh.num_elements := by
    norm_num [Mesh.num_elements, bigMesh]
  exact ⟨⟨big_construct, hn, hnd⟩,
    (stored_face_normals_unit_and_toward_opposite big_construct hn 1 hnd).1⟩

end EM

namespace EM

/-- The euclidean distance from `x` to the plane spanned by the three
points `a b c` (the classical cross-product formula). -/
def planeDistance (x a b c : Vec3) : ℝ :=
  |dot (cross (b - a) (c - a)) (x - a)| / length (cross (b - a) (c - a))

theorem distance_to_plane_get_normal (a b c d x : Vec3)
    (h : cross (b - a) (c - a) ≠ ⟨0, 0, 0⟩) :
    distance_to_plane x (get_normal a b c d) a = planeDistance x a b c := by
  have hl := length_pos_of_ne h
  have base : |dot (normalize (cross (b - a) (c - a))) (x - a)| =
      planeDistance x a b c := by
    rw [normalize, dot_smul_left, abs_mul, abs_of_pos (by positivity),
      planeDistance]
    rw [one_div, inv_mul_eq_div]
  rw [distance_to_plane, get_normal]
  split_ifs with hflip
  · rw [dot_neg_left, abs_neg]
    exact base
  · exact base

theorem distNormal_face0 (nd : Nodes) (x : Vec3)
    (h : cross (nd.C - nd.B) (nd.D - nd.B) ≠ ⟨0, 0, 0⟩) :
    distance_to_plane x (elementNormals nd 0) nd.B =
      planeDistance x nd.B nd.C nd.D :=
  distance_to_plane_get_normal nd.B nd.C nd.D nd.A x h

theorem distNormal_face1 (nd : Nodes) (x : Vec3)
    (h : cross (nd.C - nd.A) (nd.D - nd.A) ≠ ⟨0, 0, 0⟩) :
    distance_to_plane x (elementNormals nd 1) nd.A =
      planeDistance x nd.A nd.C nd.D :=
  distance_to_plane_get_normal nd.A nd.C nd.D nd.B x h

theorem distNormal_face2 (nd : Nodes) (x : Vec3)
    (h : cross (nd.B - nd.A) (nd.D - nd.A) ≠ ⟨0, 0, 0⟩) :
    distance_to_plane x (elementNormals nd 2) nd.A =
      planeDistance x nd.A nd.B nd.D :=
  distance_to_plane_get_normal nd.A nd.B nd.D nd.C x h

theorem distNormal_face3 (nd : Nodes) (x : Vec3)
    (h : cross (nd.B - nd.A) (nd.C - nd.A) ≠ ⟨0, 0, 0⟩) :
    distance_to_plane x (elementNormals nd 3) nd.A =
      planeDistance x nd.A nd.B nd.C :=
  distance_to_plane_get_normal nd.A nd.B nd.C nd.D x h

/-- C7: for a valid region, `hownear` returns exactly the minimum over the
four faces of the euclidean distance from the position to the face plane
(for nondegenerate faces), a value that is non-negative. -/
theorem hownear_inside_min_plane_dist
    {elements : List ElemRec} {nodes : List NodeRec}
    {materials : List MediumRec} {tol : ℝ} {m : Mesh}
    (h : construct elements nodes materials tol = .ok m)
    {ireg : ℕ} (hr : ireg < m.num_elements) (x : Vec3)
    (hnd0 : cross ((m.element_nodes ireg).C - (m.element_nodes ireg).B)
      ((m.element_nodes ireg).D - (m.element_nodes ireg).B) ≠ ⟨0, 0, 0⟩)
    (hnd1 : cross ((m.element_nodes ireg).C - (m.element_nodes ireg).A)
      ((m.element_nodes ireg).D - (m.element_nodes ireg).A) ≠ ⟨0, 0, 0⟩)
    (hnd2 : cross ((m.element_nodes ireg).B - (m.element_nodes ireg).A)
      ((m.element_nodes ireg).D - (m.element_nodes ireg).A) ≠ ⟨0, 0, 0⟩)
    (hnd3 : cross ((m.element_nodes ireg).B - (m.element_nodes ireg).A)
      ((m.element_nodes ireg).C - (m.element_nodes ireg).A) ≠ ⟨0, 0, 0⟩) :
    m.hownear (ireg : ℤ) x = .ok (min (min (min
      (planeDistance x (m.element_nodes ireg).B (m.element_nodes ireg).C
        (m.element_nodes ireg).D)
      (planeDistance x (m.element_nodes ireg).A (m.element_nodes ireg).C
        (m.element_nodes ireg).D))
      (planeDistance x (m.element_nodes ireg).A (m.element_nodes ireg).B
        (m.element_nodes ireg).D))
      (planeDistance x (m.element_nodes ireg).A (m.element_nodes ireg).B
        (m.element_nodes ireg).C)) ∧
    0 ≤ min (min (min
      (planeDistance x (m.element_nodes ireg).B (m.element_nodes ireg).C
        (m.element_nodes ireg).D)
      (planeDistance x (m.element_nodes ireg).A (m.element_nodes ireg).C
        (m.element_nodes ireg).D))
      (planeDistance x (m.element_nodes ireg).A (m.element_nodes ireg).B
        (m.element_nodes ireg).D))
      (planeDistance x (m.element_nodes ireg).A (m.element_nodes ireg).B
        (m.element_nodes ireg).C) := by
  constructor
  · rw [Mesh.hownear]
    rw [if_neg (by
      rintro ⟨h1, h2⟩
      have : (ireg : ℤ) ≤ (m.num_elements : ℤ) - 1 := by omega
      linarith)]
    rw [if_pos (by positivity)]
    rw [Int.toNat_natCast]
    refine congrArg Except.ok ?_
    rw [Mesh.min_interior_face_dist]
    have e0 := constructed_normal h hr 0
    have e1 := constructed_normal h hr 1
    have e2 := constructed_normal h hr 2
    have e3 := constructed_normal h hr 3
    simp only [e0, e1, e2, e3]
    rw [distNormal_face0 _ _ hnd0, distNormal_face1 _ _ hnd1,
      distNormal_face2 _ _ hnd2, distNormal_face3 _ _ hnd3]
  · have hp : ∀ a b c : Vec3, 0 ≤ planeDistance x a b c := fun a b c => by
      rw [planeDistance]
      exact div_nonneg (abs_nonneg _) (length_nonneg _)
    exact le_min (le_min (le_min (hp _ _ _) (hp _ _ _)) (hp _ _ _)) (hp _ _ _)

theorem big_cross0 :
    cross (bigTet.C - bigTet.B) (bigTet.D - bigTet.B) =
      (⟨32, 32, 16⟩ : Vec3) := by
  ext <;> simp [cross, bigTet] <;> norm_num

theorem big_cross1v :
    cross (bigTet.C - bigTet.A) (bigTet.D - bigTet.A) =
      (⟨32, 0, 0⟩ : Vec3) := by
  ext <;> simp [cross, bigTet] <;> norm_num

theorem big_cross2 :
    cross (bigTet.B - bigTet.A) (bigTet.D - bigTet.A) =
      (⟨0, -32, 0⟩ : Vec3) := by
  ext <;> simp [cross, bigTet] <;> norm_num

theorem big_cross3 :
    cross (bigTet.B - bigTet.A) (bigTet.C - bigTet.A) =
      (⟨0, 0, 16⟩ : Vec3) := by
  ext <;> simp [cross, bigTet] <;> norm_num

theorem big_cross0_ne :
    cross ((bigMesh.element_nodes 0).C - (bigMesh.element_nodes 0).B)
      ((bigMesh.element_nodes 0).D - (bigMesh.element_nodes 0).B) ≠
      (⟨0, 0, 0⟩ : Vec3) := by
  rw [bigMesh_element_nodes, big_cross0]
  intro hcon
  have := congrArg Vec3.x hcon
  norm_num at this

theorem big_cross1_ne :
    cross ((bigMesh.element_nodes 0).C - (bigMesh.element_nodes 0).A)
      ((bigMesh.element_nodes 0).D - (bigMesh.element_nodes 0).A) ≠
      (⟨0, 0, 0⟩ : Vec3) := by
  rw [bigMesh_element_nodes, big_cross1v]
  intro hcon
  have := congrArg Vec3.x hcon
  norm_num at this

theorem big_cross2_ne :
    cross ((bigMesh.element_nodes 0).B - (bigMesh.element_nodes 0).A)
      ((bigMesh.element_nodes 0).D - (bigMesh.element_nodes 0).A) ≠
      (⟨0, 0, 0⟩ : Vec3) := by
  rw [bigMesh_element_nodes, big_cross2]
  intro hcon
  have := congrArg Vec3.y hcon
  norm_num at this

theorem big_cross3_ne :
    cross ((bigMesh.element_nodes 0).B - (bigMesh.element_nodes 0).A)
      ((bigMesh.element_nodes 0).C - (bigMesh.element_nodes 0).A) ≠
      (⟨0, 0, 0⟩ : Vec3) := by
  rw [bigMesh_element_nodes, big_cross3]
  intro hcon
  have := congrArg Vec3.z hcon
  norm_num at this

theorem hownear_inside_min_plane_dist_witness :
    (construct bigElems bigNodes bigMedia bigTol = .ok bigMesh ∧
      0 < bigMesh.num_elements) ∧
    bigMesh.hownear 0 ⟨1, 1, 1⟩ = .ok (min (min (min
      (planeDistance ⟨1, 1, 1⟩ (bigMesh.element_nodes 0).B
        (bigMesh.element_nodes 0).C (bigMesh.element_nodes 0).D)
      (planeDistance ⟨1, 1, 1⟩ (bigMesh.element_nodes 0).A
        (bigMesh.element_nodes 0).C (bigMesh.element_nodes 0).D))
      (planeDistance ⟨1, 1, 1⟩ (bigMesh.element_nodes 0).A
        (bigMesh.element_nodes 0).B (bigMesh.element_nodes 0).D))
      (planeDistance ⟨1, 1, 1⟩ (bigMesh.element_nodes 0).A
        (bigMesh.element_nodes 0).B (bigMesh.element_nodes 0).C)) := by
  have hn : (0 : ℕ) < bigMesh.num_elements := by
    norm_num [Mesh.num_elements, bigMesh]
  exact ⟨⟨big_construct, hn⟩,
    (hownear_inside_min_plane_dist big_construct hn ⟨1, 1, 1⟩ big_cross0_ne
      big_cross1_ne big_cross2_ne big_cross3_ne).1⟩

end EM

namespace EM

/-- C9: whenever `point_locate` (`EGS_Mesh::isWhere`) answers with a
region id other than the `-1` sentinel, the exact point-in-tetrahedron
test accepts that region for the query point: the point is not strictly
outside any of the four face planes of the returned element. -/
theorem point_locate_sound
    {elements : List ElemRec} {nodes : List NodeRec}
    {materials : List MediumRec} {tol : ℝ} {m : Mesh}
    (h : construct elements nodes materials tol = .ok m)
    (x : Vec3) (hne : m.isWhere x ≠ -1) :
    ∃ e : ℕ, m.isWhere x = (e : ℤ) ∧
      ¬point_outside_of_plane x (m.element_nodes e).A (m.element_nodes e).B
        (m.element_nodes e).C (m.element_nodes e).D ∧
      ¬point_outside_of_plane x (m.element_nodes e).A (m.element_nodes e).C
        (m.element_nodes e).D (m.element_nodes e).B ∧
      ¬point_outside_of_plane x (m.element_nodes e).A (m.element_nodes e).B
        (m.element_nodes e).D (m.element_nodes e).C ∧
      ¬point_outside_of_plane x (m.element_nodes e).B (m.element_nodes e).C
        (m.element_nodes e).D (m.element_nodes e).A := by
  obtain ⟨e, heq, hin⟩ := Mesh.isWhere_elt_sound m x hne
  exact ⟨e, heq, hin.1, hin.2.1, hin.2.2.1, hin.2.2.2⟩

theorem big_inside_111 : insideNodes bigTet ⟨1, 1, 1⟩ := by
  refine ⟨?_, ?_, ?_, ?_⟩ <;>
    norm_num [point_outside_of_plane, dot, cross, bigTet]

theorem big_isWhere_111 : bigMesh.isWhere ⟨1, 1, 1⟩ = 0 := by
  show Octree.isWhere ⟨.leaf [0] bigBox⟩ bigEN ⟨1, 1, 1⟩ = 0
  rw [Octree.isWhere]
  rw [if_neg (by
    rw [not_not]
    norm_num [BBox.contains, bigBox, ONode.bbox])]
  rw [ONode.isWhere, firstInside]
  rw [big_en0, if_pos big_inside_111]
  norm_num

theorem point_locate_sound_witness :
    (construct bigElems bigNodes bigMedia bigTol = .ok bigMesh ∧
      bigMesh.isWhere ⟨1, 1, 1⟩ ≠ -1) ∧
    (∃ e : ℕ, bigMesh.isWhere ⟨1, 1, 1⟩ = (e : ℤ) ∧
      ¬point_outside_of_plane ⟨1, 1, 1⟩ (bigMesh.element_nodes e).A
        (bigMesh.element_nodes e).B (bigMesh.element_nodes e).C
        (bigMesh.element_nodes e).D ∧
      ¬point_outside_of_plane ⟨1, 1, 1⟩ (bigMesh.element_nodes e).A
        (bigMesh.element_nodes e).C (bigMesh.element_nodes e).D
        (bigMesh.element_nodes e).B ∧
      ¬point_outside_of_plane ⟨1, 1, 1⟩ (bigMesh.element_nodes e).A
        (bigMesh.element_nodes e).B (bigMesh.element_nodes e).D
        (bigMesh.element_nodes e).C ∧
      ¬point_outside_of_plane ⟨1, 1, 1⟩ (bigMesh.element_nodes e).B
        (bigMesh.element_nodes e).C (bigMesh.element_nodes e).D
        (bigMesh.element_nodes e).A) := by
  have hne : bigMesh.isWhere ⟨1, 1, 1⟩ ≠ -1 := by
    rw [big_isWhere_111]
    norm_num
  exact ⟨⟨big_construct, hne⟩,
    point_locate_sound big_construct ⟨1, 1, 1⟩ hne⟩

/-- The preliminary tests of `interior_triangle_ray_intersection` (all
conditions before the sign check on the parametric distance). -/
def PrelimPass (p v n a b c : Vec3) : Prop :=
  dot v n ≤ -ray_eps ∧ 0 ≤ dot n (p - a) ∧
  (mtDet p v a b c ≤ -ray_eps ∨ ray_eps ≤ mtDet p v a b c) ∧
  0 ≤ mtU p v a b c ∧ mtU p v a b c ≤ 1 ∧
  0 ≤ mtV p v a b c ∧ mtU p v a b c + mtV p v a b c ≤ 1

theorem interior_eval_of_prelims {p v n a b c : Vec3}
    (hp : PrelimPass p v n a b c) (d0 : ℝ) :
    interior_triangle_ray_intersection p v n a b c d0 =
      if mtT p v a b c < 0 then (false, 0) else (true, mtT p v a b c) := by
  obtain ⟨h1, h2, h3, h4, h5, h6, h7⟩ := hp
  rw [interior_triangle_ray_intersection]
  rw [if_neg (by simpa using h1)]
  rw [if_neg (by simpa using h2)]
  simp only []
  rw [if_neg (by
    rcases h3 with h | h
    · exact fun hc => absurd hc.1 (by
        show ¬(-ray_eps < mtDet p v a b c)
        linarith)
    · exact fun hc => absurd hc.2 (by
        show ¬(mtDet p v a b c < ray_eps)
        linarith))]
  have hueq : dot (p - a) (cross v (c - a)) * (1 / dot (b - a) (cross v (c - a)))
      = mtU p v a b c := by
    rw [mul_one_div]; rfl
  have hveq : dot v (cross (p - a) (b - a)) * (1 / dot (b - a) (cross v (c - a)))
      = mtV p v a b c := by
    rw [mul_one_div]; rfl
  have hteq : dot (c - a) (cross (p - a) (b - a)) * (1 / dot (b - a) (cross v (c - a)))
      = mtT p v a b c := by
    rw [mul_one_div]; rfl
  rw [hueq, hveq, hteq]
  rw [if_neg (by
    rintro (hc | hc)
    · exact absurd hc (by linarith)
    · exact absurd hc (by linarith))]
  rw [if_neg (by
    rintro (hc | hc)
    · exact absurd hc (by linarith)
    · exact absurd hc (by linarith))]

theorem interior_eval_of_not_prelims {p v n a b c : Vec3}
    (hp : ¬PrelimPass p v n a b c) (d0 : ℝ) :
    interior_triangle_ray_intersection p v n a b c d0 = (false, d0) := by
  rw [interior_triangle_ray_intersection]
  by_cases h1 : dot v n > -ray_eps
  · rw [if_pos h1]
  rw [if_neg h1]
  by_cases h2 : dot n (p - a) < 0
  · rw [if_pos h2]
  rw [if_neg h2]
  simp only []
  by_cases h3 : -ray_eps < dot (b - a) (cross v (c - a)) ∧
      dot (b - a) (cross v (c - a)) < ray_eps
  · rw [if_pos h3]
  rw [if_neg h3]
  have hueq : dot (p - a) (cross v (c - a)) * (1 / dot (b - a) (cross v (c - a)))
      = mtU p v a b c := by
    rw [mul_one_div]; rfl
  have hveq : dot v (cross (p - a) (b - a)) * (1 / dot (b - a) (cross v (c - a)))
      = mtV p v a b c := by
    rw [mul_one_div]; rfl
  rw [hueq, hveq]
  by_cases h4 : mtU p v a b c < 0 ∨ mtU p v a b c > 1
  · rw [if_pos h4]
  rw [if_neg h4]
  by_cases h5 : mtV p v a b c < 0 ∨ mtU p v a b c + mtV p v a b c > 1
  · rw [if_pos h5]
  rw [if_neg h5]
  exfalso
  push_neg at h1 h2 h4 h5
  refine hp ⟨h1, h2, ?_, h4.1, h4.2, h5.1, h5.2⟩
  rcases not_and_or.mp h3 with h | h
  · exact Or.inl (by push_neg at h; exact h)
  · exact Or.inr (by push_neg at h; exact h)

/-- C10: the out-parameter behaviour of
`interior_triangle_ray_intersection`.  When every preliminary test passes
but the computed parametric distance is negative, the routine reports
no-hit *and overwrites* the out parameter with `0.0`; in every other
no-hit branch the out parameter keeps its incoming value. -/
theorem interior_ray_dist_out_parameter (p v n a b c : Vec3) (dist0 : ℝ) :
    (PrelimPass p v n a b c → mtT p v a b c < 0 →
      interior_triangle_ray_intersection p v n a b c dist0 = (false, 0)) ∧
    ((interior_triangle_ray_intersection p v n a b c dist0).1 = false →
      ¬(PrelimPass p v n a b c ∧ mtT p v a b c < 0) →
      (interior_triangle_ray_intersection p v n a b c dist0).2 = dist0) := by
  constructor
  · intro hp ht
    rw [interior_eval_of_prelims hp, if_pos ht]
  · intro hfalse hnot
    by_cases hp : PrelimPass p v n a b c
    · rw [interior_eval_of_prelims hp] at hfalse ⊢
      by_cases ht : mtT p v a b c < 0
      · exact absurd ⟨hp, ht⟩ hnot
      · rw [if_neg ht] at hfalse
        simp at hfalse
    · rw [interior_eval_of_not_prelims hp]

theorem interior_ray_dist_out_parameter_witness :
    (PrelimPass ⟨1/4, 1/4, 1⟩ ⟨0, 0, 1⟩ ⟨1, 0, -(1/10)⟩ ⟨0, 0, 0⟩ ⟨1, 0, 0⟩
        ⟨0, 1, 0⟩ ∧
      mtT ⟨1/4, 1/4, 1⟩ ⟨0, 0, 1⟩ ⟨0, 0, 0⟩ ⟨1, 0, 0⟩ ⟨0, 1, 0⟩ < 0) ∧
    interior_triangle_ray_intersection ⟨1/4, 1/4, 1⟩ ⟨0, 0, 1⟩
      ⟨1, 0, -(1/10)⟩ ⟨0, 0, 0⟩ ⟨1, 0, 0⟩ ⟨0, 1, 0⟩ 42 = (false, 0) := by
  have hdet : mtDet ⟨1/4, 1/4, 1⟩ ⟨0, 0, 1⟩ ⟨0, 0, 0⟩ ⟨1, 0, 0⟩ ⟨0, 1, 0⟩
      = -1 := by
    norm_num [mtDet, dot, cross]
  have hp : PrelimPass ⟨1/4, 1/4, 1⟩ ⟨0, 0, 1⟩ ⟨1, 0, -(1/10)⟩ ⟨0, 0, 0⟩
      ⟨1, 0, 0⟩ ⟨0, 1, 0⟩ := by
    refine ⟨?_, ?_, ?_, ?_, ?_, ?_, ?_⟩ <;>
      norm_num [dot, cross, mtU, mtV, mtDet, ray_eps]
  have ht : mtT ⟨1/4, 1/4, 1⟩ ⟨0, 0, 1⟩ ⟨0, 0, 0⟩ ⟨1, 0, 0⟩ ⟨0, 1, 0⟩ < 0 := by
    norm_num [mtT, mtDet, dot, cross]
  exact ⟨⟨hp, ht⟩,
    (interior_ray_dist_out_parameter ⟨1/4, 1/4, 1⟩ ⟨0, 0, 1⟩
      ⟨1, 0, -(1/10)⟩ ⟨0, 0, 0⟩ ⟨1, 0, 0⟩ ⟨0, 1, 0⟩ 42).1 hp ht⟩

end EM

namespace EM

theorem findTag_insertTag_self (m : List (ℤ × ℕ)) (t : ℤ) (i : ℕ) :
    (findTag (insertTag m t i) t).isSome := by
  rw [insertTag]
  rcases hf : findTag m t with _ | v
  · simp only []
    induction m with
    | nil => simp [findTag]
    | cons p rest ih =>
      rw [List.cons_append, findTag]
      rw [findTag] at hf
      split_ifs at hf ⊢ with hp
      exact ih hf
  · simp [hf]

theorem findTag_insertTag_mono (m : List (ℤ × ℕ)) (t s : ℤ) (i : ℕ)
    (h : (findTag m s).isSome) :
    (findTag (insertTag m t i) s).isSome := by
  rw [insertTag]
  rcases hf : findTag m t with _ | v
  · simp only []
    induction m with
    | nil => simp [findTag] at h
    | cons p rest ih =>
      rw [List.cons_append, findTag]
      rw [findTag] at h hf
      split_ifs at h hf ⊢ with hp
      · simp
      · exact ih h hf
  · exact h

theorem length_insertTag (m : List (ℤ × ℕ)) (t : ℤ) (i : ℕ) :
    (insertTag m t i).length ≤ m.length + 1 := by
  rw [insertTag]
  rcases findTag m t with _ | v
  · simp
  · simp

theorem mkNodeMapAux_le (nodes : List NodeRec) :
    ∀ (i : ℕ) (m : List (ℤ × ℕ)),
      (mkNodeMapAux nodes i m).length ≤ m.length + nodes.length := by
  induction nodes with
  | nil => intro i m; simp [mkNodeMapAux]
  | cons n rest ih =>
    intro i m
    rw [mkNodeMapAux]
    calc (mkNodeMapAux rest (i + 1) (insertTag m n.tag i)).length ≤
        (insertTag m n.tag i).length + rest.length := ih _ _
      _ ≤ m.length + 1 + rest.length := by
          have := length_insertTag m n.tag i
          omega
      _ = m.length + (rest.length + 1) := by omega
      _ = m.length + (n :: rest).length := by simp

theorem mkNodeMapAux_lt_of_dup (nodes : List NodeRec) :
    ∀ (i : ℕ) (m : List (ℤ × ℕ)),
      (¬(nodes.map NodeRec.tag).Nodup ∨
        ∃ n ∈ nodes, (findTag m n.tag).isSome) →
      (mkNodeMapAux nodes i m).length < m.length + nodes.length := by
  induction nodes with
  | nil =>
    intro i m h
    rcases h with h | ⟨n, hn, _⟩
    · simp at h
    · simp at hn
  | cons n rest ih =>
    intro i m h
    rw [mkNodeMapAux]
    by_cases hfound : (findTag m n.tag).isSome
    · -- the head tag is already present: the map does not grow
      have hsame : insertTag m n.tag i = m := by
        rw [insertTag]
        rcases hf : findTag m n.tag with _ | v
        · rw [hf] at hfound; simp at hfound
        · simp
      rw [hsame]
      have := mkNodeMapAux_le rest (i + 1) m
      simp only [List.length_cons]
      omega
    · -- fresh head: it is inserted, and the duplication lives on
      have hgrow : (insertTag m n.tag i).length = m.length + 1 := by
        rw [insertTag]
        rcases hf : findTag m n.tag with _ | v
        · simp
        · rw [hf] at hfound; simp at hfound
      have hrest : ¬(rest.map NodeRec.tag).Nodup ∨
          ∃ n' ∈ rest, (findTag (insertTag m n.tag i) n'.tag).isSome := by
        rcases h with h | ⟨n', hn', hf'⟩
        · rw [List.map_cons, List.nodup_cons] at h
          rcases not_and_or.mp h with h | h
          · push_neg at h
            obtain ⟨n', hn', htag⟩ := List.mem_map.mp h
            refine Or.inr ⟨n', hn', ?_⟩
            rw [htag]
            exact findTag_insertTag_self m n.tag i
          · exact Or.inl h
        · rcases List.mem_cons.mp hn' with rfl | hn'
          · exact absurd hf' hfound
          · exact Or.inr ⟨n', hn', findTag_insertTag_mono m n.tag n'.tag i hf'⟩
      have := ih (i + 1) (insertTag m n.tag i) hrest
      simp only [List.length_cons]
      omega

/-- C8: two node records sharing a tag make construction fail atomically
with the duplicate-tag error: the tag → index map (which keeps only the
first entry per tag) comes out shorter than the node list, which
`initializeElements` detects, and no mesh value is produced. -/
theorem construct_duplicate_node_tag
    (elements : List ElemRec) (nodes : List NodeRec)
    (materials : List MediumRec) (tol : ℝ) {i j : ℕ}
    (hi : i < nodes.length) (hj : j < nodes.length) (hij : i ≠ j)
    (htag : (nodes.get ⟨i, hi⟩).tag = (nodes.get ⟨j, hj⟩).tag)
    (hce : elements.length < intMax) (hcn : nodes.length < intMax) :
    construct elements nodes materials tol = .error .duplicateNodeTag := by
  have hdup : ¬(nodes.map NodeRec.tag).Nodup := by
    intro hnd
    have hlen : i < (nodes.map NodeRec.tag).length := by simpa using hi
    have hlen' : j < (nodes.map NodeRec.tag).length := by simpa using hj
    have : (nodes.map NodeRec.tag).get ⟨i, hlen⟩ =
        (nodes.map NodeRec.tag).get ⟨j, hlen'⟩ := by
      simpa [List.get_map] using htag
    have := (List.Nodup.get_inj_iff hnd).mp this
    exact hij (by simpa using congrArg Fin.val this)
  have hlt : (mkNodeMap nodes).length < nodes.length := by
    have := mkNodeMapAux_lt_of_dup nodes 0 [] (Or.inl hdup)
    simpa [mkNodeMap] using this
  have hed : mkElementsData elements nodes materials =
      .error .duplicateNodeTag := by
    rw [mkElementsData]
    rw [if_neg (by omega), if_neg (by omega), if_pos (by omega)]
  rw [construct, hed]

theorem dupNodes_def : ([⟨1, 0, 0, 0⟩, ⟨1, 1, 0, 0⟩] : List NodeRec).length = 2 :=
  rfl

theorem construct_duplicate_node_tag_witness :
    ((0 : ℕ) < ([⟨1, 0, 0, 0⟩, ⟨1, 1, 0, 0⟩] : List NodeRec).length ∧
      (1 : ℕ) < ([⟨1, 0, 0, 0⟩, ⟨1, 1, 0, 0⟩] : List NodeRec).length ∧
      (0 : ℕ) ≠ 1) ∧
    construct [] [⟨1, 0, 0, 0⟩, ⟨1, 1, 0, 0⟩] [] 0 =
      .error .duplicateNodeTag := by
  have h0 : (0 : ℕ) < ([⟨1, 0, 0, 0⟩, ⟨1, 1, 0, 0⟩] : List NodeRec).length := by
    norm_num
  have h1 : (1 : ℕ) < ([⟨1, 0, 0, 0⟩, ⟨1, 1, 0, 0⟩] : List NodeRec).length := by
    norm_num
  refine ⟨⟨h0, h1, by norm_num⟩, ?_⟩
  exact construct_duplicate_node_tag [] _ [] 0 h0 h1 (by norm_num)
    (by simp [List.get]) (by norm_num [intMax]) (by norm_num [intMax])

end EM

namespace EM

theorem faceCorners0 (nd : Nodes) : faceCorners nd 0 = (nd.B, nd.C, nd.D) := rfl

theorem faceCorners1 (nd : Nodes) : faceCorners nd 1 = (nd.A, nd.C, nd.D) := rfl

theorem faceCorners2 (nd : Nodes) : faceCorners nd 2 = (nd.A, nd.B, nd.D) := rfl

theorem faceCorners3 (nd : Nodes) : faceCorners nd 3 = (nd.A, nd.B, nd.C) := rfl

/-- C3: when no face qualifies, `howfar_interior` reports distance exactly
zero and falls back to the recovery chain: the first non-sentinel
neighbour containing the position by the exact point-in-tetrahedron test;
otherwise the result of a full volume-tree `point_locate`; and if that
locate rediscovers the same region, the distinguished process-fatal
outcome (the `egsFatal` call, which terminates the run rather than
returning an error to the caller). -/
theorem howfar_interior_lost_particle
    {elements : List ElemRec} {nodes : List NodeRec}
    {materials : List MediumRec} {tol : ℝ} {m : Mesh}
    (h : construct elements nodes materials tol = .ok m)
    {ireg : ℕ} (hr : ireg < m.num_elements) (x u : Vec3) (t : ℝ)
    (hq : ∀ i : Fin 4, ¬m.faceQual ireg x u i) :
    (∀ nb : ℤ,
      ([m.neighbour ireg 0, m.neighbour ireg 1, m.neighbour ireg 2,
        m.neighbour ireg 3].find? (fun nb =>
          decide (nb ≠ -1 ∧ insideNodes (m.element_nodes nb.toNat) x)) =
        some nb) →
      m.howfar_interior ireg x u t = .ok (nb, 0, none)) ∧
    (([m.neighbour ireg 0, m.neighbour ireg 1, m.neighbour ireg 2,
        m.neighbour ireg 3].find? (fun nb =>
          decide (nb ≠ -1 ∧ insideNodes (m.element_nodes nb.toNat) x)) =
        none) →
      m.isWhere x ≠ (ireg : ℤ) →
      m.howfar_interior ireg x u t = .ok (m.isWhere x, 0, none)) ∧
    (([m.neighbour ireg 0, m.neighbour ireg 1, m.neighbour ireg 2,
        m.neighbour ireg 3].find? (fun nb =>
          decide (nb ≠ -1 ∧ insideNodes (m.element_nodes nb.toNat) x)) =
        none) →
      m.isWhere x = (ireg : ℤ) →
      m.howfar_interior ireg x u t = .error .infiniteLoop) := by
  have hloop := hfLoop_no_qual m ireg x u t [0, 1, 2, 3] 1e30
    (fun i _ => hq i)
  have hred : m.howfar_interior ireg x u t =
      (m.howfar_interior_find_lost_particle ireg x).map
        (fun nr => (nr, 0, none)) := by
    rw [Mesh.howfar_interior, hloop]
  refine ⟨?_, ?_, ?_⟩
  · intro nb hfind
    rw [hred, Mesh.howfar_interior_find_lost_particle, findLostLoop_eq_find,
      hfind]
    rfl
  · intro hfind hne
    rw [hred, Mesh.howfar_interior_find_lost_particle, findLostLoop_eq_find,
      hfind]
    simp only [if_neg hne]
    rfl
  · intro hfind heq
    rw [hred, Mesh.howfar_interior_find_lost_particle, findLostLoop_eq_find,
      hfind]
    simp only [if_pos heq]
    rfl

theorem bigMesh_neighbour (i : Fin 4) : bigMesh.neighbour 0 i = -1 := rfl

theorem big_noqual0 : ¬bigMesh.faceQual 0 ⟨2, 2, 2⟩ ⟨0, 0, 1⟩ 0 := by
  rintro ⟨h1, h2⟩
  rw [bigMesh_normal, bigN0, bigMesh_element_nodes, faceCorners0] at h1
  norm_num [dot, bigTet] at h1

theorem big_noqual1 : ¬bigMesh.faceQual 0 ⟨2, 2, 2⟩ ⟨0, 0, 1⟩ 1 := by
  rintro ⟨h1, h2⟩
  rw [bigMesh_normal, bigN1] at h2
  have hc := h2.1
  norm_num [dot, ray_eps] at hc

theorem big_noqual2 : ¬bigMesh.faceQual 0 ⟨2, 2, 2⟩ ⟨0, 0, 1⟩ 2 := by
  rintro ⟨h1, h2⟩
  rw [bigMesh_normal, bigN2] at h2
  have hc := h2.1
  norm_num [dot, ray_eps] at hc

theorem big_noqual3 : ¬bigMesh.faceQual 0 ⟨2, 2, 2⟩ ⟨0, 0, 1⟩ 3 := by
  rintro ⟨h1, h2⟩
  rw [bigMesh_normal, bigN3] at h2
  have hc := h2.1
  norm_num [dot, ray_eps] at hc

theorem big_noqual (i : Fin 4) :
    ¬bigMesh.faceQual 0 ⟨2, 2, 2⟩ ⟨0, 0, 1⟩ i := by
  fin_cases i
  · exact big_noqual0
  · exact big_noqual1
  · exact big_noqual2
  · exact big_noqual3

theorem big_not_inside_222 : ¬insideNodes bigTet ⟨2, 2, 2⟩ := by
  rintro ⟨_, _, _, h4⟩
  refine h4 ?_
  norm_num [point_outside_of_plane, dot, cross, bigTet]

theorem big_isWhere_222 : bigMesh.isWhere ⟨2, 2, 2⟩ = -1 := by
  show Octree.isWhere ⟨.leaf [0] bigBox⟩ bigEN ⟨2, 2, 2⟩ = -1
  rw [Octree.isWhere]
  rw [if_neg (by
    rw [not_not]
    norm_num [BBox.contains, bigBox, ONode.bbox])]
  rw [ONode.isWhere, firstInside]
  rw [big_en0, if_neg big_not_inside_222]
  rfl

theorem big_lost_find_none :
    ([bigMesh.neighbour 0 0, bigMesh.neighbour 0 1, bigMesh.neighbour 0 2,
      bigMesh.neighbour 0 3].find? (fun nb =>
        decide (nb ≠ -1 ∧
          insideNodes (bigMesh.element_nodes nb.toNat) ⟨2, 2, 2⟩))) =
      none := by
  rw [← findLostLoop_eq_find]
  rw [bigMesh_neighbour, bigMesh_neighbour, bigMesh_neighbour, bigMesh_neighbour]
  rw [findLostLoop, if_pos rfl, findLostLoop, if_pos rfl, findLostLoop,
    if_pos rfl, findLostLoop, if_pos rfl, findLostLoop]

theorem howfar_interior_lost_particle_witness :
    (construct bigElems bigNodes bigMedia bigTol = .ok bigMesh ∧
      0 < bigMesh.num_elements ∧
      (∀ i : Fin 4, ¬bigMesh.faceQual 0 ⟨2, 2, 2⟩ ⟨0, 0, 1⟩ i)) ∧
    bigMesh.howfar_interior 0 ⟨2, 2, 2⟩ ⟨0, 0, 1⟩ 1 =
      .ok (bigMesh.isWhere ⟨2, 2, 2⟩, 0, none) := by
  have hn : (0 : ℕ) < bigMesh.num_elements := by
    norm_num [Mesh.num_elements, bigMesh]
  have hne : bigMesh.isWhere ⟨2, 2, 2⟩ ≠ ((0 : ℕ) : ℤ) := by
    rw [big_isWhere_222]
    norm_num
  exact ⟨⟨big_construct, hn, big_noqual⟩,
    (howfar_interior_lost_particle big_construct hn ⟨2, 2, 2⟩ ⟨0, 0, 1⟩ 1
      big_noqual).2.1 big_lost_find_none hne⟩

end EM

namespace EM

theorem big_snap_houter0 :
    (0 : ℝ) ≤ dot (bigMesh.normal 0 0)
      ((⟨1, 1, 1/2000⟩ : Vec3) - (faceCorners (bigMesh.element_nodes 0) 0).1) := by
  rw [bigMesh_normal, bigN0, bigMesh_element_nodes, faceCorners0]
  norm_num [dot, bigTet]

theorem big_snap_hc0 :
    interior_triangle_ray_intersection ⟨1, 1, 1/2000⟩ ⟨0, 0, -1⟩
      (bigMesh.normal 0 0) (faceCorners (bigMesh.element_nodes 0) 0).1
      (faceCorners (bigMesh.element_nodes 0) 0).2.1
      (faceCorners (bigMesh.element_nodes 0) 0).2.2 1e30 = (false, 1e30) := by
  rw [bigMesh_normal, bigN0, bigMesh_element_nodes, faceCorners0]
  exact interior_eval_of_not_prelims (by
    rintro ⟨hc, _⟩
    norm_num [dot, ray_eps] at hc) _

theorem big_snap_houter1 :
    (0 : ℝ) ≤ dot (bigMesh.normal 0 1)
      ((⟨1, 1, 1/2000⟩ : Vec3) - (faceCorners (bigMesh.element_nodes 0) 1).1) := by
  rw [bigMesh_normal, bigN1, bigMesh_element_nodes, faceCorners1]
  norm_num [dot, bigTet]

theorem big_snap_hc1 :
    interior_triangle_ray_intersection ⟨1, 1, 1/2000⟩ ⟨0, 0, -1⟩
      (bigMesh.normal 0 1) (faceCorners (bigMesh.element_nodes 0) 1).1
      (faceCorners (bigMesh.element_nodes 0) 1).2.1
      (faceCorners (bigMesh.element_nodes 0) 1).2.2 1e30 = (false, 1e30) := by
  rw [bigMesh_normal, bigN1, bigMesh_element_nodes, faceCorners1]
  exact interior_eval_of_not_prelims (by
    rintro ⟨hc, _⟩
    norm_num [dot, ray_eps] at hc) _

theorem big_snap_houter2 :
    (0 : ℝ) ≤ dot (bigMesh.normal 0 2)
      ((⟨1, 1, 1/2000⟩ : Vec3) - (faceCorners (bigMesh.element_nodes 0) 2).1) := by
  rw [bigMesh_normal, bigN2, bigMesh_element_nodes, faceCorners2]
  norm_num [dot, bigTet]

theorem big_snap_hc2 :
    interior_triangle_ray_intersection ⟨1, 1, 1/2000⟩ ⟨0, 0, -1⟩
      (bigMesh.normal 0 2) (faceCorners (bigMesh.element_nodes 0) 2).1
      (faceCorners (bigMesh.element_nodes 0) 2).2.1
      (faceCorners (bigMesh.element_nodes 0) 2).2.2 1e30 = (false, 1e30) := by
  rw [bigMesh_normal, bigN2, bigMesh_element_nodes, faceCorners2]
  exact interior_eval_of_not_prelims (by
    rintro ⟨hc, _⟩
    norm_num [dot, ray_eps] at hc) _

theorem big_snap_houter3 :
    (0 : ℝ) ≤ dot (bigMesh.normal 0 3)
      ((⟨1, 1, 1/2000⟩ : Vec3) - (faceCorners (bigMesh.element_nodes 0) 3).1) := by
  rw [bigMesh_normal, bigN3, bigMesh_element_nodes, faceCorners3]
  norm_num [dot, bigTet]

theorem big_snap_prelims :
    PrelimPass ⟨1, 1, 1/2000⟩ ⟨0, 0, -1⟩ ⟨0, 0, 1⟩ bigTet.A bigTet.B
      bigTet.C := by
  refine ⟨?_, ?_, ?_, ?_, ?_, ?_, ?_⟩ <;>
    norm_num [dot, cross, mtU, mtV, mtDet, ray_eps, bigTet]

theorem big_snap_mtT :
    mtT ⟨1, 1, 1/2000⟩ ⟨0, 0, -1⟩ bigTet.A bigTet.B bigTet.C = 1/2000 := by
  norm_num [mtT, mtDet, dot, cross, bigTet]

theorem big_snap_hc3 :
    interior_triangle_ray_intersection ⟨1, 1, 1/2000⟩ ⟨0, 0, -1⟩
      (bigMesh.normal 0 3) (faceCorners (bigMesh.element_nodes 0) 3).1
      (faceCorners (bigMesh.element_nodes 0) 3).2.1
      (faceCorners (bigMesh.element_nodes 0) 3).2.2 1e30 =
      (true, 1/2000) := by
  rw [bigMesh_normal, bigN3, bigMesh_element_nodes, faceCorners3]
  have := interior_eval_of_prelims big_snap_prelims (1e30 : ℝ)
  rw [big_snap_mtT] at this
  rw [show ((bigTet.A, bigTet.B, bigTet.C).1 : Vec3) = bigTet.A from rfl]
  rw [this, if_neg (by norm_num)]

theorem big_snap_eval :
    bigMesh.howfar_interior 0 ⟨1, 1, 1/2000⟩ ⟨0, 0, -1⟩ 1 =
      .ok (-1, 0, some 3) := by
  rw [Mesh.howfar_interior]
  conv_lhs => rw [hfLoop]
  dsimp only []
  rw [if_pos big_snap_houter0, big_snap_hc0]
  show hfLoop bigMesh 0 ⟨1, 1, 1/2000⟩ ⟨0, 0, -1⟩ 1 [1, 2, 3] true 1e30 =
    .ok (-1, 0, some 3)
  conv_lhs => rw [hfLoop]
  dsimp only []
  rw [if_pos big_snap_houter1, big_snap_hc1]
  show hfLoop bigMesh 0 ⟨1, 1, 1/2000⟩ ⟨0, 0, -1⟩ 1 [2, 3] true 1e30 =
    .ok (-1, 0, some 3)
  conv_lhs => rw [hfLoop]
  dsimp only []
  rw [if_pos big_snap_houter2, big_snap_hc2]
  show hfLoop bigMesh 0 ⟨1, 1, 1/2000⟩ ⟨0, 0, -1⟩ 1 [3] true 1e30 =
    .ok (-1, 0, some 3)
  conv_lhs => rw [hfLoop]
  dsimp only []
  rw [if_pos big_snap_houter3, big_snap_hc3]
  show (if ((1:ℝ)/2000) > 1 then
      hfLoop bigMesh 0 ⟨1, 1, 1/2000⟩ ⟨0, 0, -1⟩ 1 [] false (1/2000)
    else .ok (bigMesh.neighbour 0 3,
      if (1:ℝ)/2000 ≤ bigMesh.halfBoundaryTolerance then 0 else 1/2000,
      some 3)) = .ok (-1, 0, some 3)
  rw [if_neg (by norm_num)]
  rw [if_pos (by
    show (1:ℝ)/2000 ≤ bigTol
    norm_num [bigTol])]
  rfl

end EM

namespace EM

theorem constructed_faceQual_iff
    {elements : List ElemRec} {nodes : List NodeRec}
    {materials : List MediumRec} {tol : ℝ} {m : Mesh}
    (h : construct elements nodes materials tol = .ok m)
    {ireg : ℕ} (hr : ireg < m.num_elements) (x u : Vec3) (j : Fin 4) :
    m.faceQual ireg x u j ↔ faceHit (m.element_nodes ireg) x u j := by
  rw [Mesh.faceQual, faceHit, constructed_normal h hr j]
  constructor
  · rintro ⟨_, hh⟩
    exact hh
  · intro hh
    exact ⟨hh.2.1, hh⟩

/-- C2 (amended): whenever `howfar_interior` reports a face, that face
passes the full interior qualification test, its Möller–Trumbore distance
is the minimum over all qualifying faces (in fact all qualifying faces
share one distance) and does not exceed the distance cap `t`; the reported
distance equals that minimum *except* when the minimum is at or below the
half boundary tolerance, in which case exactly `0` is reported; the
reported region is the neighbour across the face. -/
theorem howfar_interior_reported_face
    {elements : List ElemRec} {nodes : List NodeRec}
    {materials : List MediumRec} {tol : ℝ} {m : Mesh}
    (h : construct elements nodes materials tol = .ok m)
    {ireg : ℕ} (hr : ireg < m.num_elements) (x u : Vec3) (t : ℝ)
    {reg : ℤ} {t' : ℝ} {i : Fin 4}
    (hres : m.howfar_interior ireg x u t = .ok (reg, t', some i)) :
    m.faceQual ireg x u i ∧
    (∀ j : Fin 4, m.faceQual ireg x u j →
      faceDist (m.element_nodes ireg) x u i ≤
        faceDist (m.element_nodes ireg) x u j) ∧
    faceDist (m.element_nodes ireg) x u i ≤ t ∧
    t' = (if faceDist (m.element_nodes ireg) x u i ≤
      m.halfBoundaryTolerance then 0 else
        faceDist (m.element_nodes ireg) x u i) ∧
    reg = m.neighbour ireg i := by
  obtain ⟨hmem, hqual, hle, ht', hreg⟩ :=
    hfLoop_face_spec m ireg x u t _ _ _ _ _ _ hres
  refine ⟨hqual, ?_, hle, ht', hreg⟩
  intro j hj
  exact le_of_eq (faceHit_dist_eq (m.element_nodes ireg) x u i j
    ((constructed_faceQual_iff h hr x u i).mp hqual)
    ((constructed_faceQual_iff h hr x u j).mp hj))

theorem big_snap_qual3 :
    bigMesh.faceQual 0 ⟨1, 1, 1/2000⟩ ⟨0, 0, -1⟩ 3 := by
  refine ⟨big_snap_houter3, ?_⟩
  rw [bigMesh_normal, bigN3, bigMesh_element_nodes, faceCorners3]
  obtain ⟨p1, p2, p3, p4, p5, p6, p7⟩ := big_snap_prelims
  refine ⟨p1, p2, p3, p4, p5, p6, p7, ?_⟩
  show (0 : ℝ) ≤ mtT ⟨1, 1, 1/2000⟩ ⟨0, 0, -1⟩ bigTet.A bigTet.B bigTet.C
  rw [big_snap_mtT]
  norm_num

theorem big_snap_faceDist :
    faceDist (bigMesh.element_nodes 0) ⟨1, 1, 1/2000⟩ ⟨0, 0, -1⟩ 3 =
      1/2000 := by
  rw [bigMesh_element_nodes]
  show mtT ⟨1, 1, 1/2000⟩ ⟨0, 0, -1⟩ bigTet.A bigTet.B bigTet.C = 1/2000
  exact big_snap_mtT

/-- C2 (counterexample): on the concretely constructed one-element mesh, a
particle at height `1/2000` above face 3 moving straight down qualifies
only on face 3, whose intersection distance is `1/2000`; because that
distance is at or below the half boundary tolerance (`1/1000`), the call
reports distance exactly `0`, which differs from the minimum qualifying
intersection distance. -/
theorem howfar_reported_dist_ne_min_cx :
    construct bigElems bigNodes bigMedia bigTol = .ok bigMesh ∧
    bigMesh.howfar_interior 0 ⟨1, 1, 1/2000⟩ ⟨0, 0, -1⟩ 1 =
      .ok (-1, 0, some 3) ∧
    bigMesh.faceQual 0 ⟨1, 1, 1/2000⟩ ⟨0, 0, -1⟩ 3 ∧
    faceDist (bigMesh.element_nodes 0) ⟨1, 1, 1/2000⟩ ⟨0, 0, -1⟩ 3 =
      1/2000 ∧
    (0 : ℝ) ≠ 1/2000 :=
  ⟨big_construct, big_snap_eval, big_snap_qual3, big_snap_faceDist,
    by norm_num⟩

theorem howfar_interior_reported_face_witness :
    (construct bigElems bigNodes bigMedia bigTol = .ok bigMesh ∧
      0 < bigMesh.num_elements ∧
      bigMesh.howfar_interior 0 ⟨1, 1, 1/2000⟩ ⟨0, 0, -1⟩ 1 =
        .ok (-1, 0, some 3)) ∧
    bigMesh.faceQual 0 ⟨1, 1, 1/2000⟩ ⟨0, 0, -1⟩ 3 := by
  have hn : (0 : ℕ) < bigMesh.num_elements := by
    norm_num [Mesh.num_elements, bigMesh]
  exact ⟨⟨big_construct, hn, big_snap_eval⟩,
    (howfar_interior_reported_face big_construct hn ⟨1, 1, 1/2000⟩
      ⟨0, 0, -1⟩ 1 big_snap_eval).1⟩

/-- C6: whenever `howfar_interior` reports a face whose (minimum
qualifying) Möller–Trumbore intersection distance is at or below the
half boundary tolerance, the reported distance is exactly `0`. -/
theorem howfar_interior_snap_to_zero
    {elements : List ElemRec} {nodes : List NodeRec}
    {materials : List MediumRec} {tol : ℝ} {m : Mesh}
    (h : construct elements nodes materials tol = .ok m)
    {ireg : ℕ} (hr : ireg < m.num_elements) (x u : Vec3) (t : ℝ)
    {reg : ℤ} {t' : ℝ} {i : Fin 4}
    (hres : m.howfar_interior ireg x u t = .ok (reg, t', some i))
    (hsnap : faceDist (m.element_nodes ireg) x u i ≤
      m.halfBoundaryTolerance) :
    t' = 0 := by
  obtain ⟨_, _, _, ht', _⟩ := hfLoop_face_spec m ireg x u t _ _ _ _ _ _ hres
  rw [ht', if_pos hsnap]

theorem howfar_interior_snap_to_zero_witness :
    (construct bigElems bigNodes bigMedia bigTol = .ok bigMesh ∧
      0 < bigMesh.num_elements ∧
      bigMesh.howfar_interior 0 ⟨1, 1, 1/2000⟩ ⟨0, 0, -1⟩ 1 =
        .ok (-1, 0, some 3) ∧
      faceDist (bigMesh.element_nodes 0) ⟨1, 1, 1/2000⟩ ⟨0, 0, -1⟩ 3 ≤
        bigMesh.halfBoundaryTolerance) ∧
    (0 : ℝ) = 0 := by
  have hn : (0 : ℕ) < bigMesh.num_elements := by
    norm_num [Mesh.num_elements, bigMesh]
  have hsnap : faceDist (bigMesh.element_nodes 0) ⟨1, 1, 1/2000⟩
      ⟨0, 0, -1⟩ 3 ≤ bigMesh.halfBoundaryTolerance := by
    rw [big_snap_faceDist]
    show (1 : ℝ)/2000 ≤ bigTol
    norm_num [bigTol]
  exact ⟨⟨big_construct, hn, big_snap_eval, hsnap⟩,
    howfar_interior_snap_to_zero big_construct hn ⟨1, 1, 1/2000⟩
      ⟨0, 0, -1⟩ 1 big_snap_eval hsnap⟩

end EM

namespace EM

/-- C4 (amended): `point_locate` answers `-1` outside the expanded root
bounding box, and otherwise returns the first member — in member-list
order of the leaf reached by midpoint descent — that contains the point
by the exact point-in-tetrahedron test (`-1` if none). -/
theorem point_locate_characterization (m : Mesh) (x : Vec3) :
    m.isWhere x = if m.volumeTree.root.bbox.contains x then
      firstInside (mkEN m.nodes m.elems) x (m.volumeTree.root.descentElts x)
    else -1 := by
  rw [Mesh.isWhere, Octree.isWhere]
  by_cases hc : m.volumeTree.root.bbox.contains x
  · rw [if_neg (not_not.mpr hc), if_pos hc, ONode.isWhere_eq_descent]
  · rw [if_pos hc, if_neg hc]

/-- The claim-side notion of a point lying strictly inside a tetrahedron:
strictly on the reference-vertex side of each of the four face planes
(written with the same four plane tests `insideElement` uses). -/
def strictlyInsideNodes (nd : Nodes) (x : Vec3) : Prop :=
  0 < dot (x - nd.A) (cross (nd.B - nd.A) (nd.C - nd.A)) *
      dot (nd.D - nd.A) (cross (nd.B - nd.A) (nd.C - nd.A)) ∧
  0 < dot (x - nd.A) (cross (nd.C - nd.A) (nd.D - nd.A)) *
      dot (nd.B - nd.A) (cross (nd.C - nd.A) (nd.D - nd.A)) ∧
  0 < dot (x - nd.A) (cross (nd.B - nd.A) (nd.D - nd.A)) *
      dot (nd.C - nd.A) (cross (nd.B - nd.A) (nd.D - nd.A)) ∧
  0 < dot (x - nd.B) (cross (nd.C - nd.B) (nd.D - nd.B)) *
      dot (nd.A - nd.B) (cross (nd.C - nd.B) (nd.D - nd.B))

/-- Concrete overlap scenario: the big tetrahedron plus a small one lying
strictly in its interior (tetrahedra may overlap; construction does not
reject overlap). -/
def ovNodes : List NodeRec :=
  [⟨1, 0, 0, 0⟩, ⟨2, 4, 0, 0⟩, ⟨3, 0, 4, 0⟩, ⟨4, 0, 0, 8⟩,
   ⟨5, 1, 1, 1⟩, ⟨6, 2, 1, 1⟩, ⟨7, 1, 2, 1⟩, ⟨8, 1, 1, 2⟩]

def ovElems : List ElemRec := [⟨1, 1, 1, 2, 3, 4⟩, ⟨2, 1, 5, 6, 7, 8⟩]

def ovArr : List Vec3 :=
  [⟨0, 0, 0⟩, ⟨4, 0, 0⟩, ⟨0, 4, 0⟩, ⟨0, 0, 8⟩,
   ⟨1, 1, 1⟩, ⟨2, 1, 1⟩, ⟨1, 2, 1⟩, ⟨1, 1, 2⟩]

def ovEN : ℕ → Nodes := mkEN ovArr [(0, 1, 2, 3), (4, 5, 6, 7)]

def smallTet : Nodes := ⟨⟨1, 1, 1⟩, ⟨2, 1, 1⟩, ⟨1, 2, 1⟩, ⟨1, 1, 2⟩⟩

def ovMesh : Mesh :=
  ⟨ovArr, [(0, 1, 2, 3), (4, 5, 6, 7)], [1, 2], [0, 0],
   [fun _ => -1, fun _ => -1], mkNormals ovEN 2,
   ⟨.leaf [0, 1] bigBox⟩, ⟨.leaf [0, 1] bigBox⟩, bigTol⟩

theorem ov_ed : mkElementsData ovElems ovNodes bigMedia =
    .ok ⟨ovArr, [(0, 1, 2, 3), (4, 5, 6, 7)], [1, 2], [0, 0]⟩ := by
  simp [mkElementsData, ovElems, ovNodes, bigMedia, intMax, mkNodeMap,
    mkNodeMapAux, insertTag, findTag, resolveElems, find_node, mkMediumMap,
    mkMediumMapAux, resolveMedia, ovArr, Except.map]

theorem ov_nb : mkNeighbours [(0, 1, 2, 3), (4, 5, 6, 7)] =
    .ok [fun _ => (-1 : ℤ), fun _ => (-1 : ℤ)] := by
  rw [mkNeighbours]
  rw [if_neg (by decide)]
  rw [if_neg (by decide)]
  refine congrArg Except.ok ?_
  rw [show List.enum [((0:ℕ), (1:ℕ), (2:ℕ), (3:ℕ)), ((4:ℕ), (5:ℕ), (6:ℕ), (7:ℕ))] =
    [(0, (0, 1, 2, 3)), (1, (4, 5, 6, 7))] by decide]
  simp only [List.map_cons, List.map_nil, List.cons.injEq, and_true]
  constructor
  · funext i
    fin_cases i <;> decide
  · funext i
    fin_cases i <;> decide

theorem ov_en0 : ovEN 0 = bigTet := by
  simp [ovEN, mkEN, ovArr, bigTet, List.getD]

theorem ov_en1 : ovEN 1 = smallTet := by
  simp [ovEN, mkEN, ovArr, smallTet, List.getD]

theorem ov_unionBBox : (unionBBox ovEN 0 [1]).expand 1e-8 = bigBox := by
  rw [unionBBox]
  simp only [List.foldl]
  rw [ov_en0, ov_en1]
  simp only [growBBox, tetBBox, tet_min_x, tet_max_x, tet_min_y, tet_max_y,
    tet_min_z, tet_max_z, bigTet, smallTet, BBox.expand, bigBox]
  norm_num

theorem ov_vol : mkOctree ovEN (List.range 2) 200 =
    .ok ⟨.leaf [0, 1] bigBox⟩ := by
  rw [show List.range 2 = [0, 1] by decide]
  rw [mkOctree]
  simp only [List.length_cons, List.length_nil]
  rw [if_neg (by norm_num [intMax])]
  have hb : buildNode ovEN 200 octreeFuel [0, 1]
      ((unionBBox ovEN 0 [1]).expand 1e-8) =
      .leaf [0, 1] ((unionBBox ovEN 0 [1]).expand 1e-8) := by
    rw [show octreeFuel = 999999 + 1 by norm_num [octreeFuel]]
    rw [buildNode]
    rw [if_pos (Or.inr (by norm_num))]
  rw [hb, ov_unionBBox]

theorem ov_surf : mkOctree ovEN [0, 1] 100 = .ok ⟨.leaf [0, 1] bigBox⟩ := by
  rw [mkOctree]
  simp only [List.length_cons, List.length_nil]
  rw [if_neg (by norm_num [intMax])]
  have hb : buildNode ovEN 100 octreeFuel [0, 1]
      ((unionBBox ovEN 0 [1]).expand 1e-8) =
      .leaf [0, 1] ((unionBBox ovEN 0 [1]).expand 1e-8) := by
    rw [show octreeFuel = 999999 + 1 by norm_num [octreeFuel]]
    rw [buildNode]
    rw [if_pos (Or.inr (by norm_num))]
  rw [hb, ov_unionBBox]

theorem ov_filterBoundary :
    filterBoundary [fun _ => (-1 : ℤ), fun _ => (-1 : ℤ)]
      (List.range 2) = [0, 1] := by
  rw [show List.range 2 = [0, 1] by decide]
  rw [filterBoundary]
  rw [if_pos ⟨0, rfl⟩]
  rw [filterBoundary]
  rw [if_pos ⟨0, rfl⟩]
  rfl

theorem ov_construct : construct ovElems ovNodes bigMedia bigTol =
    .ok ovMesh := by
  rw [construct, ov_ed]
  simp only []
  rw [ov_nb]
  simp only []
  rw [show ([((0:ℕ), (1:ℕ), (2:ℕ), (3:ℕ)), ((4:ℕ), (5:ℕ), (6:ℕ), (7:ℕ))] :
    List (ℕ × ℕ × ℕ × ℕ)).length = 2 from rfl]
  rw [show mkEN ovArr [(0, 1, 2, 3), (4, 5, 6, 7)] = ovEN from rfl]
  rw [ov_vol]
  simp only []
  rw [ov_filterBoundary, ov_surf]
  rfl

theorem ovMesh_element_nodes1 : ovMesh.element_nodes 1 = smallTet := ov_en1

theorem ov_inside_big : insideNodes bigTet ⟨5/4, 5/4, 5/4⟩ := by
  refine ⟨?_, ?_, ?_, ?_⟩ <;>
    norm_num [point_outside_of_plane, dot, cross, bigTet]

theorem ov_isWhere : ovMesh.isWhere ⟨5/4, 5/4, 5/4⟩ = 0 := by
  show Octree.isWhere ⟨.leaf [0, 1] bigBox⟩ ovEN ⟨5/4, 5/4, 5/4⟩ = 0
  rw [Octree.isWhere]
  rw [if_neg (by
    rw [not_not]
    norm_num [BBox.contains, bigBox, ONode.bbox])]
  rw [ONode.isWhere, firstInside]
  rw [ov_en0, if_pos ov_inside_big]
  norm_num

/-- C4 (counterexample): in the constructed two-element mesh the small
tetrahedron (region 1) lies strictly inside the big one (region 0); for a
point strictly inside region 1, `point_locate` returns region 0 — the
first containing member in leaf order — not region 1 as the claim
demands. -/
theorem point_locate_overlap_cx :
    construct ovElems ovNodes bigMedia bigTol = .ok ovMesh ∧
    strictlyInsideNodes (ovMesh.element_nodes 1) ⟨5/4, 5/4, 5/4⟩ ∧
    ovMesh.isWhere ⟨5/4, 5/4, 5/4⟩ = 0 ∧ (0 : ℤ) ≠ 1 := by
  refine ⟨ov_construct, ?_, ov_isWhere, by norm_num⟩
  rw [ovMesh_element_nodes1]
  refine ⟨?_, ?_, ?_, ?_⟩ <;>
    norm_num [dot, cross, smallTet]

end EM
